import Mathlib

set_option maxRecDepth 1000000

/-!
Verification of the Markdown parser/renderer in `src/index.ts` (classes
`MarkdownParser`, `MarkdownRenderer`, function `processCollapsibleSections`).

Strings are modelled as `List Char` (the source operates on UTF-16 strings,
character by character; all behaviour relevant here is per-character).  The
imperative cursor loops of the source are modelled either as structural
recursions over the remaining character list, or — where the source loop can
genuinely fail to make progress — as fuel-indexed loops whose `none` result
models non-termination.  Each definition carries a comment naming the source
function and lines it embeds.
-/

namespace MDV

/-- The apostrophe character (code 39). -/
def squote : Char := Char.ofNat 39

/-- `MarkdownParser.isWhitespace` (src/index.ts:608-610): space or tab only. -/
def isWhitespace (c : Char) : Bool := c = ' ' || c = '\t'

/-- JS `String.prototype.trim` whitespace class (ASCII part): space, tab,
newline, carriage return, vertical tab, form feed. -/
def isTrimWs (c : Char) : Bool :=
  c = ' ' || c = '\t' || c = '\n' || c = '\r' || c = '\x0b' || c = '\x0c'

/-- JS `String.prototype.trim`: drop leading and trailing whitespace. -/
def trimJS (s : List Char) : List Char :=
  (((s.dropWhile isTrimWs).reverse).dropWhile isTrimWs).reverse

/-- `text[i]` on a JS string, guarded in the source by `i < length`;
out-of-range reads never influence guarded control flow. -/
def charAt (t : List Char) (i : Nat) : Char := t.getD i (Char.ofNat 0)

/-- `text.substring(a, b)` for `a ≤ b` (all source uses satisfy this). -/
def substr (t : List Char) (a b : Nat) : List Char := (t.drop a).take (b - a)

/-- Does `pat` occur in `l` starting at index `i`? -/
def occursAt (pat l : List Char) (i : Nat) : Bool :=
  (l.drop i).take pat.length == pat

/-- Does `pat` occur anywhere in `l`? -/
def containsSub (pat l : List Char) : Bool :=
  (List.range (l.length + 1)).any (occursAt pat l)

/-- Number of indices at which `pat` occurs in `l`. -/
def countSub (pat l : List Char) : Nat :=
  ((List.range (l.length + 1)).filter (occursAt pat l)).length

/-- Leftmost index at which `pat` occurs in `l`, if any. -/
def findIdx? (pat l : List Char) : Option Nat :=
  (List.range (l.length + 1)).find? (occursAt pat l)

/-! ## Inline span parser (`MarkdownParser.parseInline`, src/index.ts:391-570)

The source is a `while (pos < len)` loop over a fixed string `text`.  We keep
the fixed string `t` and the cursor `pos`, and model each bounded forward scan
inside one loop iteration as a structural recursion over `t.drop pos`. -/

/-- Inline AST nodes (`MarkdownNode` with the inline `type` values). -/
inductive Inline where
  | text (content : List Char)
  | bold (content : List Char)
  | italic (content : List Char)
  | inlineCode (content : List Char)
  | link (content : List Char) (url : List Char)
  | image (alt : List Char) (url : List Char)
deriving DecidableEq

/-- Offset of the first `c c` pair in the list, or its length
(the `while (pos < len && text.substring(pos, pos + 2) !== cc)` scans,
src/index.ts:402-404). -/
def findDouble (c : Char) : List Char → Nat
  | [] => 0
  | [_] => 1
  | a :: b :: rest =>
    if a = c && b = c then 0 else 1 + findDouble c (b :: rest)

/-- Offset of the first occurrence of `c`, or the list length
(the `while (pos < len && text[pos] !== c)` scans). -/
def findChar (c : Char) (l : List Char) : Nat :=
  (l.takeWhile (fun a => a ≠ c)).length

/-- The bracket-matching scan of the link branch (src/index.ts:470-480):
offset at which the loop stops (a `]` with zero nesting), or the list length. -/
def findLinkClose (nested : Nat) : List Char → Nat
  | [] => 0
  | a :: rest =>
    if a = '[' then 1 + findLinkClose (nested + 1) rest
    else if a = ']' then
      (if nested = 0 then 0 else 1 + findLinkClose (nested - 1) rest)
    else 1 + findLinkClose nested rest

/-- The plain-text break test (src/index.ts:548-556), at the head of `l`,
where `prev` is the character before the head (`none` at position 0). -/
def isStartTok (prev : Option Char) (l : List Char) : Bool :=
  match l with
  | [] => false
  | a :: rest =>
    (l.take 2 = ['*', '*']) ||
    (a = '*' && (match prev with | none => true | some p => p ≠ '*') &&
      (match rest with | b :: _ => b ≠ '*' | [] => false)) ||
    (a = '`') || (a = '[') ||
    (l.take 2 = ['!', '['])

/-- Offset at which the plain-text collection loop (src/index.ts:547-559)
stops, threading the previous character for the italic adjacency test. -/
def findTextEnd (prev : Option Char) : List Char → Nat
  | [] => 0
  | a :: rest =>
    if isStartTok prev (a :: rest) then 0 else 1 + findTextEnd (some a) rest

/-- One iteration of the `parseInline` while-loop body (src/index.ts:396-567):
the nodes pushed during the iteration and the new cursor.  Called only with
`pos < t.length`.  The link and image branches fall through (to the next
check) when their lookahead fails, exactly as in the source. -/
def inlineStep (t : List Char) (pos : Nat) : List Inline × Nat :=
  let len := t.length
  -- Bold (src/index.ts:398-417)
  if pos + 1 < len ∧ (t.drop pos).take 2 = ['*', '*'] then
    let start := pos + 2
    let e := start + findDouble '*' (t.drop start)
    let content := substr t start e
    ([.bold content], if e < len then e + 2 else e)
  -- Italic (src/index.ts:420-439)
  else if charAt t pos = '*' ∧ (pos = 0 ∨ charAt t (pos - 1) ≠ '*') ∧
      (pos + 1 < len ∧ charAt t (pos + 1) ≠ '*') then
    let start := pos + 1
    let e := start + findChar '*' (t.drop start)
    let content := substr t start e
    ([.italic content], if e < len then e + 1 else e)
  -- Inline code (src/index.ts:442-461)
  else if charAt t pos = '`' then
    let start := pos + 1
    let e := start + findChar '`' (t.drop start)
    let content := substr t start e
    ([.inlineCode content], if e < len then e + 1 else e)
  else
    -- Link (src/index.ts:464-506); falls through on failure
    let linkRes : Option (Inline × Nat) :=
      if charAt t pos = '[' then
        let np := (pos + 1) + findLinkClose 0 (t.drop (pos + 1))
        if np < len ∧ charAt t np = ']' ∧ np + 1 < len ∧ charAt t (np + 1) = '(' then
          let urlStart := np + 2
          let urlEnd := urlStart + findChar ')' (t.drop urlStart)
          if urlEnd < len then
            some (.link (substr t (pos + 1) np) (substr t urlStart urlEnd), urlEnd + 1)
          else none
        else none
      else none
    match linkRes with
    | some (n, p) => ([n], p)
    | none =>
      -- Image (src/index.ts:509-542); falls through on failure
      let imgRes : Option (Inline × Nat) :=
        if (t.drop pos).take 2 = ['!', '['] then
          let np := (pos + 2) + findChar ']' (t.drop (pos + 2))
          if np < len ∧ charAt t np = ']' ∧ np + 1 < len ∧ charAt t (np + 1) = '(' then
            let urlStart := np + 2
            let urlEnd := urlStart + findChar ')' (t.drop urlStart)
            if urlEnd < len then
              some (.image (substr t (pos + 2) np) (substr t urlStart urlEnd), urlEnd + 1)
            else none
          else none
        else none
      match imgRes with
      | some (n, p) => ([n], p)
      | none =>
        -- Plain text (src/index.ts:544-566)
        let prevOpt : Option Char := if pos = 0 then none else some (charAt t (pos - 1))
        let e := pos + findTextEnd prevOpt (t.drop pos)
        (if pos < e then [.text (substr t pos e)] else [], e)

/-- The `parseInline` while-loop (src/index.ts:396), fuel-indexed: `none`
models non-termination (the loop body can fail to advance the cursor). -/
def inlineLoop : Nat → List Char → Nat → Option (List Inline)
  | 0, t, pos => if pos < t.length then none else some []
  | fuel + 1, t, pos =>
    if pos < t.length then
      match inlineStep t pos with
      | (ns, pos') =>
        match inlineLoop fuel t pos' with
        | some rest => some (ns ++ rest)
        | none => none
    else some []

/-- `MarkdownParser.parseInline` (src/index.ts:391-570).  `t.length + 1` fuel
is sufficient whenever every executed iteration advances the cursor; a stuck
iteration repeats forever (the step function is deterministic in `(t, pos)`),
so `none` is returned exactly when the source loops forever. -/
def parseInlineF (t : List Char) : Option (List Inline) :=
  inlineLoop (t.length + 1) t 0

/-! ## Block scanner (`MarkdownParser.parseBlock` and friends)

The source keeps a single cursor `this.position` into the fixed input.  We
model each block function on the *remaining* character list and return the
block together with the remaining list after it.  The only backward peek in
the source, `text[position - 1] === '\n'` in `parseCodeBlock`, is at a
position whose predecessor is the newline ending the fence's language line,
which the list model threads explicitly.  A cursor that the source moves to
`length + 1` (one past the end) is modelled as the empty remainder; both
terminate the enclosing `while (position < length)` loops identically. -/

/-- A list item (`MarkdownNode` with `type: 'list_item'`, src/index.ts:316-320). -/
structure ListItem where
  content : List Char
  children : List Inline
deriving DecidableEq

/-- Block-level AST nodes (`MarkdownNode` with the block `type` values). -/
inductive Block where
  | heading (level : Nat) (content : List Char) (children : List Inline)
  | paragraph (content : List Char) (children : List Inline)
  | blockquote (content : List Char) (children : List Inline)
  | code (content : List Char) (language : List Char)
  | list (ordered : Bool) (items : List ListItem)
  | hr
deriving DecidableEq

/-- Is the block a heading?  (`type === 'heading'`.) -/
def isHeadingB : Block → Bool
  | .heading _ _ _ => true
  | _ => false

/-- The inner loop of `skipEmptyLines` (src/index.ts:578-589) started at a
space/tab: `some k` means the line holds only whitespace and `k` characters
are consumed (including the terminating newline, or the one-past-the-end
step at end of input); `none` means a non-whitespace character was found and
the cursor is restored. -/
def skipWsLineCount : List Char → Option Nat
  | [] => some 1
  | a :: rest =>
    if a = '\n' then some 1
    else if isWhitespace a then (skipWsLineCount rest).map (· + 1)
    else none

/-- `MarkdownParser.skipEmptyLines` (src/index.ts:573-594), fuel-indexed;
every executed iteration consumes at least one character, so `length + 1`
fuel (as passed by `parseBlockF`) is always sufficient. -/
def skipEmptyLinesL : Nat → List Char → List Char
  | 0, l => l
  | fuel + 1, l =>
    match l with
    | [] => []
    | a :: rest =>
      if a = '\n' then skipEmptyLinesL fuel rest
      else if isWhitespace a then
        match skipWsLineCount (a :: rest) with
        | none => a :: rest
        | some k => skipEmptyLinesL fuel ((a :: rest).drop k)
      else a :: rest

/-- `MarkdownParser.parseHeading` (src/index.ts:96-132).  `none` propagates a
non-terminating `parseInline` call. -/
def parseHeadingF (l : List Char) : Option (Block × List Char) :=
  let hashes := (l.takeWhile (fun c => c = '#')).length
  let level := min hashes 6
  let l1 := (l.drop hashes).dropWhile isWhitespace
  let content := trimJS (l1.takeWhile (fun c => c ≠ '\n'))
  let rest := (l1.dropWhile (fun c => c ≠ '\n')).drop 1
  (parseInlineF content).map (fun ns => (.heading level content ns, rest))

/-- The line test of `MarkdownParser.isHorizontalRule` (src/index.ts:625-631):
only the rule character and whitespace up to the newline. -/
def hrLineOk (p : Char) : List Char → Bool
  | [] => true
  | a :: rest =>
    if a = '\n' then true
    else if a ≠ p && !(isWhitespace a) then false
    else hrLineOk p rest

/-- `MarkdownParser.isHorizontalRule` (src/index.ts:612-636). -/
def isHorizontalRuleF (l : List Char) : Bool :=
  match l with
  | a :: b :: c :: _ =>
    if a ≠ '-' && a ≠ '*' && a ≠ '_' then false
    else if b = a && c = a then hrLineOk a l
    else false
  | _ => false

/-- `MarkdownParser.parseHorizontalRule` (src/index.ts:134-151). -/
def parseHorizontalRuleF (l : List Char) : Block × List Char :=
  let c := l.headD ' '
  let l1 := l.dropWhile (fun x => x = c)
  ((.hr), (l1.dropWhile (fun x => x ≠ '\n')).drop 1)

/-- The line-collecting loop of `MarkdownParser.parseBlockquote`
(src/index.ts:156-180), returning the collected lines and the remainder.
Each executed iteration consumes at least the line's newline, so the
`length + 1` fuel passed by `parseBlockquoteF` is always sufficient. -/
def blockquoteLoop : Nat → List Char → List (List Char) × List Char
  | 0, l => ([], l)
  | fuel + 1, l =>
    if l.isEmpty then ([], l)
    else
      let l1 := if l.head? = some '>' then (l.drop 1).dropWhile isWhitespace else l
      let line := l1.takeWhile (fun c => c ≠ '\n')
      match l1.dropWhile (fun c => c ≠ '\n') with
      | [] => ([line], [])
      | _ :: rest2 =>
        match rest2 with
        | [] => ([line], [])
        | b :: _ =>
          if b ≠ '>' then ([line], rest2)
          else
            let (ls, rem) := blockquoteLoop fuel rest2
            (line :: ls, rem)

/-- `MarkdownParser.parseBlockquote` (src/index.ts:153-189). -/
def parseBlockquoteF (l : List Char) : Option (Block × List Char) :=
  let (lines, rem) := blockquoteLoop (l.length + 1) l
  let content := List.intercalate ['\n'] lines
  (parseInlineF content).map (fun ns => (.blockquote content ns, rem))

/-- The content scan of `MarkdownParser.parseCodeBlock` (src/index.ts:205-212):
offset of the first triple backtick preceded by a newline, or the list
length.  `prev` is the character before the head of the list; the scan is
entered with `prev = '\n'` (the newline ending the fence's language line), so
the source's `position === 0` disjunct is unreachable there. -/
def findFence (prev : Char) : List Char → Nat
  | [] => 0
  | a :: rest =>
    if (a :: rest).take 3 = ['`', '`', '`'] ∧ prev = '\n' then 0
    else 1 + findFence a rest

/-- `MarkdownParser.parseCodeBlock` (src/index.ts:191-233).  Note the stored
content is `content.trim()` (line 230). -/
def parseCodeBlockF (l : List Char) : Block × List Char :=
  let l1 := l.drop 3
  let language := trimJS (l1.takeWhile (fun c => c ≠ '\n'))
  match l1.dropWhile (fun c => c ≠ '\n') with
  | [] => (.code [] language, [])
  | _ :: body =>
    let k := findFence '\n' body
    let content := trimJS (body.take k)
    match body.drop k with
    | [] => (.code content language, [])
    | after =>
      let a2 := after.drop 3
      let a3 := match a2 with
        | [] => a2
        | c :: _ => if c ≠ '\n' then a2.dropWhile (fun x => x ≠ '\n') else a2
      (.code content language, a3.drop 1)

/-- The item-content scan of `MarkdownParser.parseList` (src/index.ts:283-312):
number of characters of the item's content.  At a newline it peeks past the
next line's indentation; only a same-kind list marker start or a blank line
ends the item. -/
def listContentLen (ordered : Bool) : List Char → Nat
  | [] => 0
  | a :: rest =>
    if a = '\n' then
      match (rest.dropWhile isWhitespace).head? with
      | some c =>
        if (ordered && c.isDigit) || (!ordered && (c = '-' || c = '*' || c = '+')) then 0
        else if c = '\n' then 0
        else 1 + listContentLen ordered rest
      | none => 1 + listContentLen ordered rest
    else 1 + listContentLen ordered rest

/-- The item loop of `MarkdownParser.parseList` (src/index.ts:239-343),
fuel-indexed (each executed iteration consumes the item's marker, so the
`length + 1` fuel passed by `parseListF` is always sufficient).  `none`
propagates a non-terminating `parseInline` call.  On a failed marker match
the partially consumed characters stay consumed, as in the source. -/
def parseListLoop : Nat → Bool → Nat → List ListItem → List Char →
    Option (List ListItem × List Char)
  | 0, _, _, items, l => some (items, l)
  | fuel + 1, ordered, currentIndent, items, l =>
    if l.isEmpty then some (items, l)
    else
      let indent := (l.takeWhile isWhitespace).length
      let l1 := l.drop indent
      if items.length = 0 ∨ indent = currentIndent then
        let marker? : Option (List Char) :=
          if ordered then
            match l1.dropWhile Char.isDigit with
            | '.' :: l3 => some (l3.dropWhile isWhitespace)
            | _ => none
          else
            match l1 with
            | '-' :: l2 => some (l2.dropWhile isWhitespace)
            | '*' :: l2 => some (l2.dropWhile isWhitespace)
            | '+' :: l2 => some (l2.dropWhile isWhitespace)
            | _ => none
        match marker? with
        | some l2 =>
          let k := listContentLen ordered l2
          let content := trimJS (l2.take k)
          match parseInlineF content with
          | none => none
          | some ns =>
            let items' := items ++ [⟨content, ns⟩]
            let l4 := if (l2.drop k).head? = some '\n' then (l2.drop k).drop 1 else l2.drop k
            if l4.head? = some '\n' then some (items', l4.drop 1)
            else parseListLoop fuel ordered indent items' l4
        | none =>
          some (items, if ordered then l1.dropWhile Char.isDigit else l1)
      else some (items, l1)

/-- `MarkdownParser.parseList` (src/index.ts:235-350). -/
def parseListF (ordered : Bool) (l : List Char) : Option (Block × List Char) :=
  (parseListLoop (l.length + 1) ordered 0 [] l).map
    (fun p => (.list ordered p.1, p.2))

/-- Does the list's first character satisfy `p`?  (`i < length && p(text[i])`.) -/
def headIs (p : Char → Bool) (l : List Char) : Bool :=
  match l.head? with
  | some c => p c
  | none => false

/-- The paragraph scan (src/index.ts:356-374): number of characters of the
paragraph, stopping before a newline whose next line starts another block. -/
def paragraphLen : List Char → Nat
  | [] => 0
  | a :: rest =>
    if a = '\n' then
      match rest with
      | [] => 0
      | b :: rest2 =>
        if b = '\n' ∨ b = '#' ∨ b = '>' then 0
        else if rest.take 3 = ['`', '`', '`'] then 0
        else if b = '-' ∨ b = '*' ∨ b = '+' then 0
        else if b.isDigit && headIs (fun d => d = '.') rest2 then 0
        else 1 + paragraphLen rest
    else 1 + paragraphLen rest

/-- `MarkdownParser.parseParagraph` (src/index.ts:352-388). -/
def parseParagraphF (l : List Char) : Option (Block × List Char) :=
  let k := paragraphLen l
  let content := trimJS (l.take k)
  let rest := if (l.drop k).head? = some '\n' then (l.drop k).drop 1 else l.drop k
  (parseInlineF content).map (fun ns => (.paragraph content ns, rest))

/-- `MarkdownParser.parseBlock` (src/index.ts:42-93): skip empty lines, then
classify by the source's fixed precedence order.  Returns `none` for a
non-terminating `parseInline` call, `some (none, _)` for the source's `null`
(end of input). -/
def parseBlockF (l0 : List Char) : Option (Option Block × List Char) :=
  let l := skipEmptyLinesL (l0.length + 1) l0
  match l with
  | [] => some (none, [])
  | a :: rest =>
    if a = '#' then (parseHeadingF l).map (fun p => (some p.1, p.2))
    else if isHorizontalRuleF l then
      some (some (parseHorizontalRuleF l).1, (parseHorizontalRuleF l).2)
    else if a = '>' then (parseBlockquoteF l).map (fun p => (some p.1, p.2))
    else if l.take 3 = ['`', '`', '`'] then
      some (some (parseCodeBlockF l).1, (parseCodeBlockF l).2)
    else if (a = '-' || a = '*' || a = '+') && headIs isWhitespace rest then
      (parseListF false l).map (fun p => (some p.1, p.2))
    else if a.isDigit then
      match rest.dropWhile Char.isDigit with
      | '.' :: l3 =>
        if headIs isWhitespace l3 then
          (parseListF true l).map (fun p => (some p.1, p.2))
        else (parseParagraphF l).map (fun p => (some p.1, p.2))
      | _ => (parseParagraphF l).map (fun p => (some p.1, p.2))
    else (parseParagraphF l).map (fun p => (some p.1, p.2))

/-- The `parse` while-loop (src/index.ts:31-36), fuel-indexed. -/
def parseBlocksLoop : Nat → List Char → Option (List Block)
  | 0, l => if l.isEmpty then some [] else none
  | fuel + 1, l =>
    if l.isEmpty then some []
    else
      match parseBlockF l with
      | none => none
      | some (ob, rem) =>
        match parseBlocksLoop fuel rem with
        | none => none
        | some rest => some (ob.toList ++ rest)

/-- `MarkdownParser.parse` (src/index.ts:26-39), returning `(ast, headings)`.
The source collects `this.headings` by pushing inside `parseHeading`
(line 129); since `parseHeading` is called only from `parseBlock` and each
result is pushed onto the ast, the headings array equals the ast's heading
blocks in document order. -/
def parseF (t : List Char) : Option (List Block × List Block) :=
  (parseBlocksLoop (t.length + 1) t).map (fun ast => (ast, ast.filter isHeadingB))

/-! ## Renderer (`MarkdownRenderer`, src/index.ts:640-850) -/

/-- One global single-character regex replace, e.g. `.replace(/&/g, '&amp;')`. -/
def replaceAll (s : List Char) (c : Char) (r : List Char) : List Char :=
  s.flatMap (fun a => if a = c then r else [a])

/-- `MarkdownRenderer.escapeHTML` (src/index.ts:773-780): five sequential
global replaces, `&` first. -/
def escapeHTML (s : List Char) : List Char :=
  replaceAll (replaceAll (replaceAll (replaceAll (replaceAll
    s '&' "&amp;".toList) '<' "&lt;".toList) '>' "&gt;".toList)
    '"' "&quot;".toList) squote "&#039;".toList

/-- The `\w` class of the non-global-unicode JS regexes in
`generateHeadingId`: ASCII letters, digits, underscore. -/
def isWordChar (c : Char) : Bool :=
  ('a' ≤ c && c ≤ 'z') || ('A' ≤ c && c ≤ 'Z') || ('0' ≤ c && c ≤ '9') || c = '_'

/-- The `\s` class of those regexes (ASCII part). -/
def isRegexSpace (c : Char) : Bool :=
  c = ' ' || c = '\t' || c = '\n' || c = '\r' || c = '\x0b' || c = '\x0c'

/-- `.replace(/\s+/g, '-')`: each maximal whitespace run becomes one hyphen.
`insideRun` records whether the previous character was whitespace (so the
current whitespace character extends an already-replaced run). -/
def collapseWsAux (insideRun : Bool) : List Char → List Char
  | [] => []
  | c :: cs =>
    if isRegexSpace c then
      (if insideRun then [] else ['-']) ++ collapseWsAux true cs
    else c :: collapseWsAux false cs

/-- `.replace(/\s+/g, '-')` on a whole string. -/
def collapseWsToHyphen (s : List Char) : List Char := collapseWsAux false s

/-- `.replace(/^-+|-+$/g, '')`: strip leading and trailing hyphen runs. -/
def trimHyphens (s : List Char) : List Char :=
  (((s.dropWhile (fun c => c = '-')).reverse).dropWhile (fun c => c = '-')).reverse

/-- `MarkdownRenderer.generateHeadingId` (src/index.ts:759-765):
lowercase, drop `[^\w\s-]`, collapse `\s+` to `-`, strip edge hyphens.
`Char.toLower` matches JS `toLowerCase` on ASCII. -/
def generateHeadingId (s : List Char) : List Char :=
  trimHyphens (collapseWsToHyphen
    ((s.map Char.toLower).filter (fun c => isWordChar c || isRegexSpace c || c = '-')))

/-- `MarkdownRenderer.isExternalUrl` (src/index.ts:768-770). -/
def isExternalUrl (u : List Char) : Bool :=
  u.take 7 = "http://".toList || u.take 8 = "https://".toList || u.take 2 = ['/', '/']

/-- One case of `MarkdownRenderer.renderInlineContent` (src/index.ts:722-756). -/
def renderInline : Inline → List Char
  | .text c => escapeHTML c
  | .bold c => "<strong>".toList ++ escapeHTML c ++ "</strong>".toList
  | .italic c => "<em>".toList ++ escapeHTML c ++ "</em>".toList
  | .inlineCode c => "<code>".toList ++ escapeHTML c ++ "</code>".toList
  | .link txt url =>
    let target := if isExternalUrl url then
      " target=\"_blank\" rel=\"noopener noreferrer\"".toList else []
    "<a href=\"".toList ++ escapeHTML url ++ "\"".toList ++ target ++ ">".toList ++
      escapeHTML txt ++ "</a>".toList
  | .image alt url =>
    "<img src=\"".toList ++ escapeHTML url ++ "\" alt=\"".toList ++ escapeHTML alt ++
      "\" class=\"expandable-image\">".toList

/-- `MarkdownRenderer.renderInlineContent` (src/index.ts:722-756). -/
def renderInlineContent (ns : List Inline) : List Char :=
  (ns.map renderInline).flatten

/-- Decimal rendering of a level number (`${node.level}`). -/
def natStr (n : Nat) : List Char := (Nat.repr n).toList

/-- `MarkdownRenderer.renderNode` (src/index.ts:682-719).  The code-block
template reproduces the source template literal's exact whitespace
(src/index.ts:695-698); note the language tag is interpolated *without*
`escapeHTML`. -/
def renderNode : Block → List Char
  | .heading level content children =>
    "<h".toList ++ natStr level ++ " id=\"".toList ++ generateHeadingId content ++
      "\">".toList ++ renderInlineContent children ++ "</h".toList ++ natStr level ++
      ">".toList
  | .paragraph _ children => "<p>".toList ++ renderInlineContent children ++ "</p>".toList
  | .blockquote _ children =>
    "<blockquote>".toList ++ renderInlineContent children ++ "</blockquote>".toList
  | .code content language =>
    "<div class=\"code-block-container\">\n          <pre><code class=\"language-".toList ++
      language ++ "\">".toList ++ escapeHTML content ++
      "</code></pre>\n          <button class=\"copy-button\" aria-label=\"Copy code\">Copy</button>\n        </div>".toList
  | .list ordered items =>
    (if ordered then "<ol>".toList else "<ul>".toList) ++
      (items.map (fun it =>
        "<li>".toList ++ renderInlineContent it.children ++ "</li>".toList)).flatten ++
      (if ordered then "</ol>".toList else "</ul>".toList)
  | .hr => "<hr>".toList

/-- `MarkdownRenderer.render` (src/index.ts:650-658). -/
def renderBlocks (ast : List Block) : List Char :=
  (ast.map renderNode).flatten

/-- One entry of `MarkdownRenderer.generateTOC` (src/index.ts:668-675),
with the template literal's exact whitespace.  The headings array holds only
heading blocks (see `parseF`), so the catch-all case is unreachable. -/
def tocItem : Block → List Char
  | .heading level content children =>
    "<li class=\"toc-item toc-level-".toList ++ natStr level ++
      "\">\n        <a href=\"#".toList ++ generateHeadingId content ++ "\">".toList ++
      renderInlineContent children ++ "</a>\n      </li>".toList
  | _ => []

/-- `MarkdownRenderer.generateTOC` (src/index.ts:661-679). -/
def generateTOC (headings : List Block) : List Char :=
  if headings.isEmpty then []
  else "<ul class=\"toc-list\">".toList ++ (headings.map tocItem).flatten ++ "</ul>".toList

/-! ## Collapsible sections (`processCollapsibleSections`, src/index.ts:853-859)

A single `String.replace` with the global, lazy regex
`/<!-- collapse -->([\s\S]*?)<!-- \/collapse -->/g`: matches scan the
original string left to right without rescanning replaced output.  Because a
match must begin with the literal open marker and the lazy group stops at the
first close marker, the leftmost match begins at the first open marker that
is followed (at least 17 characters later) by a close marker, and its group
ends at the first such close marker. -/

def openMarker : List Char := "<!-- collapse -->".toList
def closeMarker : List Char := "<!-- /collapse -->".toList
def detailsOpen : List Char :=
  "<details class=\"collapsible\"><summary>Show/Hide Content</summary>".toList
def detailsClose : List Char := "</details>".toList

/-- The global replace loop; each match consumes at least the two markers
(35 characters), so the `length + 1` fuel passed by `processCS` is always
sufficient. -/
def pcsLoop : Nat → List Char → List Char
  | 0, s => s
  | fuel + 1, s =>
    match findIdx? openMarker s with
    | none => s
    | some o =>
      match findIdx? closeMarker (s.drop (o + 17)) with
      | none => s
      | some c0 =>
        s.take o ++ detailsOpen ++ (s.drop (o + 17)).take c0 ++ detailsClose ++
          pcsLoop fuel (s.drop (o + 17 + c0 + 18))

/-- `processCollapsibleSections` (src/index.ts:853-859). -/
def processCS (s : List Char) : List Char := pcsLoop (s.length + 1) s

/-- Is the inline node a plain `text` node? -/
def isTextNode : Inline → Bool
  | .text _ => true
  | _ => false

/-- Modelled from the claim's words (refinement comparison only): the slug
pipeline keeping only `[a-z0-9\s-]` after lowercasing. -/
def slugSpecClaim (s : List Char) : List Char :=
  trimHyphens (collapseWsToHyphen
    ((s.map Char.toLower).filter
      (fun c => ('a' ≤ c && c ≤ 'z') || ('0' ≤ c && c ≤ '9') || isRegexSpace c || c = '-')))

/-- The amended slug algorithm: the claim's pipeline with character class
`[a-z0-9_\s-]` (underscore kept, as the source regex class `\w` does). -/
def slugAmended (s : List Char) : List Char :=
  trimHyphens (collapseWsToHyphen
    ((s.map Char.toLower).filter
      (fun c => ('a' ≤ c && c ≤ 'z') || ('0' ≤ c && c ≤ '9') || c = '_' ||
        isRegexSpace c || c = '-')))

/-- The per-character effect of the five sequential replaces of
`escapeHTML`; the replacement strings of the later passes contain none of
the earlier pass characters, so the passes compose characterwise. -/
def escapeChar (c : Char) : List Char :=
  if c = '&' then "&amp;".toList
  else if c = '<' then "&lt;".toList
  else if c = '>' then "&gt;".toList
  else if c = '"' then "&quot;".toList
  else if c = squote then "&#039;".toList
  else [c]

/-- Number of occurrences of a character in a string. -/
def countChar (c : Char) (s : List Char) : Nat :=
  (s.filter (fun a => a = c)).length

/-- Number of `<` characters contributed by the fixed markup of one rendered
inline node (independent of the node's text content). -/
def ltTagCount : Inline → Nat
  | .text _ => 0
  | .bold _ => 2
  | .italic _ => 2
  | .inlineCode _ => 2
  | .link _ _ => 2
  | .image _ _ => 1

/-! ## Theorems -/

/-- Past the end of the input, the inline loop exits immediately at any fuel. -/
theorem inlineLoop_exit (fuel : Nat) (t : List Char) (pos : Nat) (h : t.length ≤ pos) :
    inlineLoop fuel t pos = some [] := by
  cases fuel <;> simp [inlineLoop, Nat.not_lt.mpr h]

/-- If one iteration of the inline loop emits nothing and does not move the
cursor, the loop never terminates: it returns `none` at every fuel. -/
theorem inlineLoop_stuck (t : List Char) (pos : Nat) (hlt : pos < t.length)
    (hstep : inlineStep t pos = ([], pos)) : ∀ fuel, inlineLoop fuel t pos = none := by
  intro fuel
  induction fuel with
  | zero => simp [inlineLoop, hlt]
  | succ f ih => simp [inlineLoop, hlt, hstep, ih]

/-- On delimiter-free text the plain-text scan runs to the end of the input. -/
theorem findTextEnd_all (l : List Char) (prev : Option Char)
    (h : ∀ c ∈ l, c ≠ '*' ∧ c ≠ '`' ∧ c ≠ '[') :
    findTextEnd prev l = l.length := by
  induction l generalizing prev with
  | nil => simp [findTextEnd]
  | cons a rest ih =>
    have ha := h a (by simp)
    have hstart : isStartTok prev (a :: rest) = false := by
      simp only [isStartTok, List.take_succ_cons]
      cases rest with
      | nil => simp [ha.1, ha.2.1, ha.2.2]
      | cons b r2 =>
        have hb := h b (by simp)
        simp [ha.1, ha.2.1, ha.2.2, hb.2.2, List.take_succ_cons]
    simp only [findTextEnd, hstart, Bool.false_eq_true, if_false, List.length_cons]
    rw [ih _ (fun c hc => h c (by simp [hc]))]
    omega

/-- On nonempty delimiter-free text, one inline iteration consumes the whole
input as a single text node. -/
theorem inlineStep_plain (t : List Char) (hne : t ≠ [])
    (h : ∀ c ∈ t, c ≠ '*' ∧ c ≠ '`' ∧ c ≠ '[') :
    inlineStep t 0 = ([.text t], t.length) := by
  obtain ⟨a, rest, rfl⟩ : ∃ a rest, t = a :: rest := by
    cases t with
    | nil => exact absurd rfl hne
    | cons a rest => exact ⟨a, rest, rfl⟩
  have ha := h a (by simp)
  have hbold : ¬ (0 + 1 < (a :: rest).length ∧ ((a :: rest).drop 0).take 2 = ['*', '*']) := by
    rintro ⟨-, h2⟩
    simp [List.take_succ_cons] at h2
    exact ha.1 h2.1
  have hital : ¬ (charAt (a :: rest) 0 = '*' ∧ (0 = 0 ∨ charAt (a :: rest) (0 - 1) ≠ '*') ∧
      (0 + 1 < (a :: rest).length ∧ charAt (a :: rest) (0 + 1) ≠ '*')) := by
    rintro ⟨h1, -⟩
    simp [charAt] at h1
    exact ha.1 h1
  have hcode : ¬ charAt (a :: rest) 0 = '`' := by
    simp [charAt]; exact ha.2.1
  have hlink : ¬ charAt (a :: rest) 0 = '[' := by
    simp [charAt]; exact ha.2.2
  have himg : ¬ ((a :: rest).drop 0).take 2 = ['!', '['] := by
    intro h2
    simp [List.take_succ_cons] at h2
    cases rest with
    | nil => simp at h2
    | cons b r2 =>
      have hb := h b (by simp)
      simp [List.take_succ_cons] at h2
      exact hb.2.2 h2.2
  simp only [inlineStep, if_neg hbold, if_neg hital, if_neg hcode, if_neg hlink, if_neg himg]
  have hfte2 : findTextEnd none (a :: rest) = rest.length + 1 := by
    simpa using findTextEnd_all (a :: rest) none h
  have htk : List.take (rest.length + 1) (a :: rest) = a :: rest := by
    simp [List.take_length]
  simp [charAt, ha.1, hfte2, htk, substr]

/-- `parseInline` on delimiter-free text: the whole input as one text node
(or nothing, for empty input). -/
theorem parseInline_plain (t : List Char)
    (h : ∀ c ∈ t, c ≠ '*' ∧ c ≠ '`' ∧ c ≠ '[') :
    parseInlineF t = some (if t = [] then [] else [.text t]) := by
  cases ht : t with
  | nil => simp [parseInlineF, inlineLoop, ht]
  | cons a rest =>
    rw [← ht]
    have hne : t ≠ [] := by simp [ht]
    have hlen : 0 < t.length := by simp [ht]
    simp only [parseInlineF, inlineLoop, hlen, if_pos, inlineStep_plain t hne h,
      inlineLoop_exit _ t t.length (Nat.le_refl _)]
    simp [hne]

/-- Claim C1: the spec asserts that `parse` terminates on every input because
every loop iteration either consumes a character or exits.  This is FALSE on
the code: on the input `"["` the link branch of `parseInline` fails (no
closing bracket) and the plain-text collector stops immediately at the `[`
without consuming anything, so the inline loop — and with it `parse` —
repeats forever at the same cursor.  Formally, the fuel-indexed loops return
`none` (non-termination) at every fuel. -/
theorem c1_parse_diverges_on_unmatched_bracket :
    inlineStep "[".toList 0 = ([], 0) ∧
    (∀ fuel, inlineLoop fuel "[".toList 0 = none) ∧
    (∀ fuel, parseBlocksLoop fuel "[".toList = none) ∧
    parseF "[".toList = none := by
  refine ⟨by decide, fun fuel => inlineLoop_stuck _ 0 (by decide) (by decide) fuel, ?_, by decide⟩
  intro fuel
  cases fuel with
  | zero => decide
  | succ f =>
    have hpb : parseBlockF ['['] = none := by decide
    simp [parseBlocksLoop, hpb]

/-- Claim C2: the spec asserts that a `[` with no valid `](url)` suffix is
emitted as plain text from that position on (e.g. `"[text]("` renders as the
literal escaped text).  This is FALSE on the code: on `"[text]("` the link
branch finds `](` but no closing parenthesis, falls through, and the
plain-text collector stops immediately at the `[` without consuming
anything, so `parseInline` (and `parse`) loop forever instead of emitting
text nodes. -/
theorem c2_malformed_link_diverges :
    inlineStep "[text](".toList 0 = ([], 0) ∧
    (∀ fuel, inlineLoop fuel "[text](".toList 0 = none) ∧
    parseF "[text](".toList = none := by
  exact ⟨by decide, fun fuel => inlineLoop_stuck _ 0 (by decide) (by decide) fuel, by decide⟩

/-- Claim C10: a string containing none of `*`, `` ` ``, `[` passes through
`parseInline` as a single unaltered text node (empty input gives the empty
sequence). -/
theorem c10_plain_text_identity (s : List Char)
    (h : ∀ c ∈ s, c ≠ '*' ∧ c ≠ '`' ∧ c ≠ '[') :
    parseInlineF s = some (if s = [] then [] else [Inline.text s]) :=
  parseInline_plain s h

/-- Witness for C10 at a concrete input. -/
theorem c10_plain_text_identity_witness :
    parseInlineF "hello world!".toList = some [Inline.text "hello world!".toList] := by
  simpa using c10_plain_text_identity "hello world!".toList (by decide)

theorem findDouble_all (c : Char) (s : List Char)
    (h : ∀ i, i < s.length → (s.drop i).take 2 ≠ [c, c]) :
    findDouble c s = s.length := by
  induction s with
  | nil => simp [findDouble]
  | cons a rest ih =>
    cases rest with
    | nil => simp [findDouble]
    | cons b r2 =>
      have h0 := h 0 (by simp)
      simp [List.take_succ_cons] at h0
      simp only [findDouble]
      rw [if_neg (by simpa using h0)]
      rw [ih (fun i hi => by
        simpa using h (i + 1) (by simp only [List.length_cons] at hi ⊢; omega))]
      simp only [List.length_cons]
      omega

theorem findChar_all (c : Char) (l : List Char) (h : ∀ x ∈ l, x ≠ c) :
    findChar c l = l.length := by
  simp only [findChar]
  rw [List.takeWhile_eq_self_iff.mpr (by simpa using h)]

theorem parseInline_single_step (t : List Char) (ns : List Inline)
    (hlen : 0 < t.length) (hstep : inlineStep t 0 = (ns, t.length)) :
    parseInlineF t = some ns := by
  simp only [parseInlineF, inlineLoop, if_pos hlen, hstep]
  rw [inlineLoop_exit t.length t t.length (Nat.le_refl _)]
  simp

theorem inlineStep_bold_unterminated (s : List Char)
    (h : ∀ i, i < s.length → (s.drop i).take 2 ≠ ['*', '*']) :
    inlineStep ('*' :: '*' :: s) 0 = ([.bold s], ('*' :: '*' :: s).length) := by
  have hc1 : (1 : Nat) < s.length + 1 + 1 := by omega
  have hc2 : List.take 2 ('*' :: '*' :: s) = ['*', '*'] := by simp [List.take_succ_cons]
  have hnolt : ¬ (2 + s.length < s.length + 1 + 1) := by omega
  have hsub : substr ('*' :: '*' :: s) 2 (2 + s.length) = s := by
    simp [substr, List.take_length, show 2 + s.length - 2 = s.length from by omega]
  simp only [inlineStep, Nat.zero_add, List.length_cons, List.drop_succ_cons, List.drop_zero,
    hc1, hc2, and_self, if_true, findDouble_all '*' s h, if_neg hnolt, hsub,
    Prod.mk.injEq]
  exact ⟨trivial, by omega⟩

theorem parseInline_bold_unterminated (s : List Char)
    (h : ∀ i, i < s.length → (s.drop i).take 2 ≠ ['*', '*']) :
    parseInlineF ('*' :: '*' :: s) = some [Inline.bold s] :=
  parseInline_single_step _ _ (by simp) (inlineStep_bold_unterminated s h)


theorem inlineStep_italic_unterminated (x : Char) (s : List Char)
    (hx : x ≠ '*') (hs : '*' ∉ s) :
    inlineStep ('*' :: x :: s) 0 = ([.italic (x :: s)], ('*' :: x :: s).length) := by
  have hc1 : (1 : Nat) < s.length + 1 + 1 := by omega
  have hch0 : charAt ('*' :: x :: s) 0 = '*' := rfl
  have hch1 : charAt ('*' :: x :: s) 1 = x := rfl
  have hfc : findChar '*' (x :: s) = s.length + 1 := by
    have := findChar_all '*' (x :: s) (by
      intro c hc
      rcases List.mem_cons.mp hc with rfl | hmem
      · exact hx
      · exact fun e => hs (e ▸ hmem))
    simpa using this
  have hnolt : ¬ (1 + (s.length + 1) < s.length + 1 + 1) := by omega
  have hsub : substr ('*' :: x :: s) 1 (1 + (s.length + 1)) = x :: s := by
    simp [substr, List.take_length, show 1 + (s.length + 1) - 1 = s.length + 1 from by omega]
  simp only [inlineStep, Nat.zero_add, List.length_cons, List.drop_succ_cons, List.drop_zero,
    List.take_succ_cons, List.take_zero, List.cons.injEq, and_true, true_and, and_false,
    false_and, eq_self_iff_true, hx, hc1, hch0, hch1, hfc, if_neg hnolt, hsub, Prod.mk.injEq,
    true_or, or_true, ne_eq, not_false_eq_true, not_false_iff, not_true, if_true, if_false,
    ite_true, ite_false]
  omega

theorem parseInline_italic_unterminated (x : Char) (s : List Char)
    (hx : x ≠ '*') (hs : '*' ∉ s) :
    parseInlineF ('*' :: x :: s) = some [Inline.italic (x :: s)] :=
  parseInline_single_step _ _ (by simp) (inlineStep_italic_unterminated x s hx hs)

theorem inlineStep_code_unterminated (s : List Char) (hs : '`' ∉ s) :
    inlineStep ('`' :: s) 0 = ([.inlineCode s], ('`' :: s).length) := by
  have hch0 : charAt ('`' :: s) 0 = '`' := rfl
  have hcc : ('`' : Char) ≠ '*' := by decide
  have hfc : findChar '`' s = s.length := findChar_all '`' s (fun c hc e => hs (e ▸ hc))
  have hnolt : ¬ (1 + s.length < s.length + 1) := by omega
  have hsub : substr ('`' :: s) 1 (1 + s.length) = s := by
    simp [substr, List.take_length, show 1 + s.length - 1 = s.length from by omega]
  simp only [inlineStep, Nat.zero_add, List.length_cons, List.drop_succ_cons, List.drop_zero,
    List.take_succ_cons, List.take_zero, List.cons.injEq, and_true, true_and, and_false,
    false_and, eq_self_iff_true, hch0, hcc, hfc, if_neg hnolt, hsub, Prod.mk.injEq,
    true_or, or_true, not_false_iff, not_true, if_true, if_false, ite_true, ite_false]
  omega

theorem parseInline_code_unterminated (s : List Char) (hs : '`' ∉ s) :
    parseInlineF ('`' :: s) = some [Inline.inlineCode s] :=
  parseInline_single_step _ _ (by simp) (inlineStep_code_unterminated s hs)

/-- Claim C8 counterexample: the claim says an unterminated bold delimiter
makes the remainder come out as plain text; the code instead emits a `bold`
node holding the remainder, so `"**abc"` parses to a bold node, not text. -/
theorem c8_unterminated_bold_counterexample :
    parseInlineF "**abc".toList = some [Inline.bold "abc".toList] ∧
    [Inline.bold "abc".toList].all isTextNode = false ∧
    [Inline.bold "abc".toList] ≠ [Inline.text "**abc".toList] := by
  decide

/-- Claim C8 (amended): an opening bold, italic, or code-span delimiter with
no matching closing delimiter before end of text consumes the remainder as
the element's *content*: the parser emits a single bold/italic/code node
whose content is everything after the opening delimiter (rendered as that
element), not plain text. -/
theorem c8_unterminated_delimiters_amended
    (s1 : List Char) (x : Char) (s2 s3 : List Char)
    (h1 : ∀ i, i < s1.length → (s1.drop i).take 2 ≠ ['*', '*'])
    (h2x : x ≠ '*') (h2 : '*' ∉ s2) (h3 : '`' ∉ s3) :
    parseInlineF ('*' :: '*' :: s1) = some [Inline.bold s1] ∧
    parseInlineF ('*' :: x :: s2) = some [Inline.italic (x :: s2)] ∧
    parseInlineF ('`' :: s3) = some [Inline.inlineCode s3] :=
  ⟨parseInline_bold_unterminated s1 h1, parseInline_italic_unterminated x s2 h2x h2,
   parseInline_code_unterminated s3 h3⟩

/-- Witness for C8 (amended) at concrete inputs. -/
theorem c8_unterminated_delimiters_amended_witness :
    parseInlineF "**abc".toList = some [Inline.bold "abc".toList] ∧
    parseInlineF "*abc".toList = some [Inline.italic "abc".toList] ∧
    parseInlineF "`abc".toList = some [Inline.inlineCode "abc".toList] := by
  have h := c8_unterminated_delimiters_amended "abc".toList 'a' "bc".toList "abc".toList
    (by decide) (by decide) (by decide) (by decide)
  exact h

/-- Claim C3: the spec asserts nested collapsible markers yield nested toggle
containers via a structural recursion over the block tree.  This is FALSE on
the code on two counts, shown at the concrete input
`"<!-- collapse -->\nHello\n<!-- /collapse -->"`: (1) the parser has no
collapsible block type at all — the marker lines are swallowed into one
paragraph whose text is HTML-escaped by the renderer, so
`processCollapsibleSections` (a textual regex replace run *after* rendering)
finds no literal marker and emits no `<details>` container even at depth 1;
(2) even on raw HTML containing nested literal markers, the single-pass lazy
regex produces one flat container (capturing the inner open marker as text)
rather than nested ones. -/
theorem c3_collapsible_markers_escaped_no_details :
    parseF "<!-- collapse -->\nHello\n<!-- /collapse -->".toList =
      some ([Block.paragraph "<!-- collapse -->\nHello\n<!-- /collapse -->".toList
        [Inline.text "<!-- collapse -->\nHello\n<!-- /collapse -->".toList]], []) ∧
    processCS (renderBlocks [Block.paragraph
        "<!-- collapse -->\nHello\n<!-- /collapse -->".toList
        [Inline.text "<!-- collapse -->\nHello\n<!-- /collapse -->".toList]]) =
      "<p>&lt;!-- collapse --&gt;\nHello\n&lt;!-- /collapse --&gt;</p>".toList ∧
    countSub "<details".toList
      "<p>&lt;!-- collapse --&gt;\nHello\n&lt;!-- /collapse --&gt;</p>".toList = 0 ∧
    processCS "<!-- collapse -->A<!-- collapse -->B<!-- /collapse -->C<!-- /collapse -->".toList =
      ("<details class=\"collapsible\"><summary>Show/Hide Content</summary>A<!-- collapse -->B</details>C<!-- /collapse -->").toList ∧
    countSub "<details".toList
      ("<details class=\"collapsible\"><summary>Show/Hide Content</summary>A<!-- collapse -->B</details>C<!-- /collapse -->").toList = 1 := by
  decide

/-- Claim C4 counterexample: on input ``"```<x\ny\n```"`` the fenced block's
language tag `<x` is interpolated into the `class` attribute *without*
`escapeHTML`, so the rendered HTML contains a raw `<` from user text (the
claim says no unescaped `<` from raw user text ever appears). -/
theorem c4_language_tag_unescaped_counterexample :
    parseF "```<x\ny\n```".toList = some ([Block.code "y".toList "<x".toList], []) ∧
    containsSub "class=\"language-<x\"".toList
      (renderBlocks [Block.code "y".toList "<x".toList]) = true ∧
    escapeHTML "<x".toList = "&lt;x".toList ∧
    containsSub "&lt;".toList (renderBlocks [Block.code "y".toList "<x".toList]) = false := by
  decide

/-- Claim C5 counterexample: for the fenced block ``"```\n  x\n```"`` the
text between the fences (one trailing newline removed) is `"  x"`, but the
stored `raw_content` is `"x"`: the source applies JS `trim()`, which strips
the leading spaces too, contradicting the claim that only a single
leading/trailing newline is removed and other whitespace is preserved. -/
theorem c5_code_trim_counterexample :
    parseF "```\n  x\n```".toList = some ([Block.code "x".toList []], []) ∧
    "x".toList ≠ "  x".toList := by
  decide

/-- Claim C7 counterexample: on `"- a\n- b\n1. c"` the line `1. c` does not
terminate the unordered list and open an `<ol>`; it is absorbed into the
second item's content (the item-content scan only breaks on same-kind
markers or blank lines), so the result is one `<ul>` with items `"a"` and
`"b\n1. c"` and no `<ol>` at all. -/
theorem c7_list_kind_switch_counterexample :
    parseF "- a\n- b\n1. c".toList =
      some ([Block.list false [⟨"a".toList, [Inline.text "a".toList]⟩,
        ⟨"b\n1. c".toList, [Inline.text "b\n1. c".toList]⟩]], []) ∧
    renderBlocks [Block.list false [⟨"a".toList, [Inline.text "a".toList]⟩,
        ⟨"b\n1. c".toList, [Inline.text "b\n1. c".toList]⟩]] =
      "<ul><li>a</li><li>b\n1. c</li></ul>".toList ∧
    countSub "<ol>".toList "<ul><li>a</li><li>b\n1. c</li></ul>".toList = 0 ∧
    countSub "<ul>".toList "<ul><li>a</li><li>b\n1. c</li></ul>".toList = 1 := by
  decide

/-- Claim C9 counterexample: the claim's character class `[a-z0-9\s-]` would
remove underscores, but the source regex `[^\w\s-]` keeps them (`\w`
includes `_`): `generateHeadingId "a_b" = "a_b"`, not `"ab"`. -/
theorem c9_slug_underscore_counterexample :
    generateHeadingId "a_b".toList = "a_b".toList ∧
    slugSpecClaim "a_b".toList = "ab".toList ∧
    "a_b".toList ≠ "ab".toList := by
  decide

/-- `Char.toLower` never produces an ASCII uppercase letter. -/
theorem toLower_not_upper (a : Char) : ¬('A' ≤ a.toLower ∧ a.toLower ≤ 'Z') := by
  rintro ⟨h1, h2⟩
  have h1' : (65 : Nat) ≤ a.toLower.toNat := h1
  have h2' : a.toLower.toNat ≤ 90 := h2
  have hln : a.toLower.toNat =
      if 65 ≤ a.toNat ∧ a.toNat ≤ 90 then a.toNat + 32 else a.toNat := by
    simp only [Char.toLower, ge_iff_le]
    split
    case isTrue hc =>
      have hv : (a.toNat + 32).isValidChar := Or.inl (by omega)
      unfold Char.ofNat
      rw [dif_pos hv]
      rfl
    case isFalse hc => rfl
  rw [hln] at h1' h2'
  by_cases hc : 65 ≤ a.toNat ∧ a.toNat ≤ 90
  · rw [if_pos hc] at h1' h2'; omega
  · rw [if_neg hc] at h1' h2'; omega

/-- Claim C9 (amended): `slug(T)` equals the claim's pipeline — lowercase,
remove characters outside the class, collapse whitespace runs to single
hyphens, trim edge hyphens — with the character class corrected to
`[a-z0-9_\s-]` (underscore kept). -/
theorem c9_slug_amended (T : List Char) : generateHeadingId T = slugAmended T := by
  simp only [generateHeadingId, slugAmended]
  congr 2
  apply List.filter_congr
  intro x hx
  obtain ⟨a, -, rfl⟩ := List.mem_map.mp hx
  have hup : ('A' ≤ a.toLower && a.toLower ≤ 'Z') = false := by
    cases hA : decide ('A' ≤ a.toLower) <;> cases hZ : decide (a.toLower ≤ 'Z') <;>
      simp_all [toLower_not_upper]
    exact toLower_not_upper a ⟨hA, hZ⟩
  simp only [isWordChar, hup, Bool.or_false, Bool.false_or, Bool.or_assoc]

theorem replaceAll_cons (a : Char) (s : List Char) (c : Char) (r : List Char) :
    replaceAll (a :: s) c r = (if a = c then r else [a]) ++ replaceAll s c r := by
  simp [replaceAll]

theorem replaceAll_append (x y : List Char) (c : Char) (r : List Char) :
    replaceAll (x ++ y) c r = replaceAll x c r ++ replaceAll y c r := by
  simp [replaceAll]

theorem escapeHTML_nil : escapeHTML [] = [] := by decide

theorem escapeHTML_cons (a : Char) (s : List Char) :
    escapeHTML (a :: s) = escapeChar a ++ escapeHTML s := by
  by_cases h1 : a = '&'
  · subst h1
    simp [escapeHTML, escapeChar, replaceAll_cons, replaceAll_append, show ('&' = squote) = False from by decide, show ('a' = squote) = False from by decide, show ('m' = squote) = False from by decide, show ('p' = squote) = False from by decide, show (';' = squote) = False from by decide, show ('l' = squote) = False from by decide, show ('t' = squote) = False from by decide, show ('g' = squote) = False from by decide, show ('q' = squote) = False from by decide, show ('u' = squote) = False from by decide, show ('o' = squote) = False from by decide, show ('#' = squote) = False from by decide, show ('0' = squote) = False from by decide, show ('3' = squote) = False from by decide, show ('9' = squote) = False from by decide, show ('<' = squote) = False from by decide, show ('>' = squote) = False from by decide, show ('\"' = squote) = False from by decide]
  · by_cases h2 : a = '<'
    · subst h2
      simp [escapeHTML, escapeChar, replaceAll_cons, replaceAll_append, h1, show ('&' = squote) = False from by decide, show ('a' = squote) = False from by decide, show ('m' = squote) = False from by decide, show ('p' = squote) = False from by decide, show (';' = squote) = False from by decide, show ('l' = squote) = False from by decide, show ('t' = squote) = False from by decide, show ('g' = squote) = False from by decide, show ('q' = squote) = False from by decide, show ('u' = squote) = False from by decide, show ('o' = squote) = False from by decide, show ('#' = squote) = False from by decide, show ('0' = squote) = False from by decide, show ('3' = squote) = False from by decide, show ('9' = squote) = False from by decide, show ('<' = squote) = False from by decide, show ('>' = squote) = False from by decide, show ('\"' = squote) = False from by decide]
    · by_cases h3 : a = '>'
      · subst h3
        simp [escapeHTML, escapeChar, replaceAll_cons, replaceAll_append, h1, h2, show ('&' = squote) = False from by decide, show ('a' = squote) = False from by decide, show ('m' = squote) = False from by decide, show ('p' = squote) = False from by decide, show (';' = squote) = False from by decide, show ('l' = squote) = False from by decide, show ('t' = squote) = False from by decide, show ('g' = squote) = False from by decide, show ('q' = squote) = False from by decide, show ('u' = squote) = False from by decide, show ('o' = squote) = False from by decide, show ('#' = squote) = False from by decide, show ('0' = squote) = False from by decide, show ('3' = squote) = False from by decide, show ('9' = squote) = False from by decide, show ('<' = squote) = False from by decide, show ('>' = squote) = False from by decide, show ('\"' = squote) = False from by decide]
      · by_cases h4 : a = '"'
        · subst h4
          simp [escapeHTML, escapeChar, replaceAll_cons, replaceAll_append, h1, h2, h3, show ('&' = squote) = False from by decide, show ('a' = squote) = False from by decide, show ('m' = squote) = False from by decide, show ('p' = squote) = False from by decide, show (';' = squote) = False from by decide, show ('l' = squote) = False from by decide, show ('t' = squote) = False from by decide, show ('g' = squote) = False from by decide, show ('q' = squote) = False from by decide, show ('u' = squote) = False from by decide, show ('o' = squote) = False from by decide, show ('#' = squote) = False from by decide, show ('0' = squote) = False from by decide, show ('3' = squote) = False from by decide, show ('9' = squote) = False from by decide, show ('<' = squote) = False from by decide, show ('>' = squote) = False from by decide, show ('\"' = squote) = False from by decide]
        · by_cases h5 : a = squote
          · subst h5
            simp [escapeHTML, escapeChar, replaceAll_cons, replaceAll_append, h1, h2, h3, h4,
              show (squote = '&') = False from by decide,
              show (squote = '<') = False from by decide,
              show (squote = '>') = False from by decide,
              show (squote = '\"') = False from by decide, show ('&' = squote) = False from by decide, show ('a' = squote) = False from by decide, show ('m' = squote) = False from by decide, show ('p' = squote) = False from by decide, show (';' = squote) = False from by decide, show ('l' = squote) = False from by decide, show ('t' = squote) = False from by decide, show ('g' = squote) = False from by decide, show ('q' = squote) = False from by decide, show ('u' = squote) = False from by decide, show ('o' = squote) = False from by decide, show ('#' = squote) = False from by decide, show ('0' = squote) = False from by decide, show ('3' = squote) = False from by decide, show ('9' = squote) = False from by decide, show ('<' = squote) = False from by decide, show ('>' = squote) = False from by decide, show ('\"' = squote) = False from by decide]
          · simp [escapeHTML, escapeChar, replaceAll_cons, replaceAll_append, h1, h2, h3, h4, h5]

theorem escapeHTML_no_specials (s : List Char) :
    ∀ c ∈ escapeHTML s, c ≠ '<' ∧ c ≠ '>' ∧ c ≠ '"' ∧ c ≠ squote := by
  induction s with
  | nil => simp [escapeHTML_nil]
  | cons a rest ih =>
    rw [escapeHTML_cons]
    intro c hc
    rcases List.mem_append.mp hc with h | h
    · simp only [escapeChar] at h
      split_ifs at h with h1 h2 h3 h4 h5
      · fin_cases h <;> decide
      · fin_cases h <;> decide
      · fin_cases h <;> decide
      · fin_cases h <;> decide
      · fin_cases h <;> decide
      · simp at h
        subst h
        exact ⟨h2, h3, h4, h5⟩
    · exact ih c h

theorem countChar_append (c : Char) (x y : List Char) :
    countChar c (x ++ y) = countChar c x + countChar c y := by
  simp [countChar]

theorem countChar_lt_escapeHTML (s : List Char) : countChar '<' (escapeHTML s) = 0 := by
  simp only [countChar, List.length_eq_zero, List.filter_eq_nil_iff]
  intro a ha
  simpa using (escapeHTML_no_specials s a ha).1

theorem countChar_nil (c : Char) : countChar c [] = 0 := rfl

theorem countChar_cons (c a : Char) (l : List Char) :
    countChar c (a :: l) = (if a = c then 1 else 0) + countChar c l := by
  simp only [countChar, List.filter_cons]
  split_ifs <;> simp_all
  omega

theorem countChar_lt_renderInline (n : Inline) :
    countChar '<' (renderInline n) = ltTagCount n := by
  cases n with
  | text c => simp [renderInline, ltTagCount, countChar_lt_escapeHTML]
  | bold c =>
    simp [renderInline, ltTagCount, countChar_cons, countChar_append, countChar_lt_escapeHTML,
      countChar_nil]
  | italic c =>
    simp [renderInline, ltTagCount, countChar_cons, countChar_append, countChar_lt_escapeHTML,
      countChar_nil]
  | inlineCode c =>
    simp [renderInline, ltTagCount, countChar_cons, countChar_append, countChar_lt_escapeHTML,
      countChar_nil]
  | link txt url =>
    simp only [renderInline, ltTagCount]
    split_ifs <;>
      simp [countChar_cons, countChar_append, countChar_lt_escapeHTML, countChar_nil]
  | image alt url =>
    simp [renderInline, ltTagCount, countChar_cons, countChar_append, countChar_lt_escapeHTML,
      countChar_nil]

theorem countChar_lt_renderInlineContent (ns : List Inline) :
    countChar '<' (renderInlineContent ns) = (ns.map ltTagCount).sum := by
  induction ns with
  | nil => decide
  | cons n rest ih =>
    simp only [renderInlineContent, List.map_cons, List.flatten_cons, countChar_append,
      List.sum_cons]
    rw [countChar_lt_renderInline]
    simp only [renderInlineContent] at ih
    omega

/-- Claim C4 (amended): every enumerated raw text field is passed through
`escapeHTML`, which eliminates `<`, `>`, `"`, `'` outright (so the number of
`<` characters in rendered inline content depends only on the node markup,
never on the user text), and a paragraph containing `<script>` renders with
it escaped; however the universal claim fails because the code-block
language tag is emitted unescaped (see the counterexample). -/
theorem c4_escaping_amended :
    (∀ s : List Char, ∀ c ∈ escapeHTML s, c ≠ '<' ∧ c ≠ '>' ∧ c ≠ '"' ∧ c ≠ squote) ∧
    (∀ ns : List Inline, countChar '<' (renderInlineContent ns) = (ns.map ltTagCount).sum) ∧
    parseF "<script>hello".toList = some ([Block.paragraph "<script>hello".toList
      [Inline.text "<script>hello".toList]], []) ∧
    renderBlocks [Block.paragraph "<script>hello".toList
      [Inline.text "<script>hello".toList]] = "<p>&lt;script&gt;hello</p>".toList :=
  ⟨escapeHTML_no_specials, countChar_lt_renderInlineContent, by decide, by decide⟩

/-- Witness for C4 (amended) at concrete inputs. -/
theorem c4_escaping_amended_witness :
    ('&' ≠ '<' ∧ '&' ≠ '>' ∧ '&' ≠ '"' ∧ '&' ≠ squote) ∧
    countChar '<' (renderInlineContent [Inline.bold "x".toList]) =
      ([Inline.bold "x".toList].map ltTagCount).sum :=
  ⟨c4_escaping_amended.1 "<".toList '&' (by decide),
   c4_escaping_amended.2.1 [Inline.bold "x".toList]⟩

theorem takeWhile_append_stop (p : Char → Bool) (L rest : List Char)
    (hall : ∀ x ∈ L, p x = true) (hstop : ∀ y ∈ rest.take 1, p y = false) :
    (L ++ rest).takeWhile p = L := by
  induction L with
  | nil =>
    cases rest with
    | nil => simp
    | cons b r2 =>
      have hb := hstop b (by simp)
      simp [List.takeWhile_cons, hb]
  | cons x xs ih =>
    have hx := hall x (by simp)
    simp only [List.cons_append, List.takeWhile_cons, hx, if_true]
    rw [ih (fun z hz => hall z (by simp [hz]))]

theorem dropWhile_append_stop (p : Char → Bool) (L rest : List Char)
    (hall : ∀ x ∈ L, p x = true) (hstop : ∀ y ∈ rest.take 1, p y = false) :
    (L ++ rest).dropWhile p = rest := by
  induction L with
  | nil =>
    cases rest with
    | nil => simp
    | cons b r2 =>
      have hb := hstop b (by simp)
      simp [List.dropWhile_cons, hb]
  | cons x xs ih =>
    have hx := hall x (by simp)
    simp only [List.cons_append, List.dropWhile_cons, hx, if_true]
    exact ih (fun z hz => hall z (by simp [hz]))

theorem length_dropWhile_le' (p : Char → Bool) (l : List Char) :
    (l.dropWhile p).length ≤ l.length := by
  induction l with
  | nil => simp
  | cons a rest ih =>
    by_cases h : p a
    · simp [List.dropWhile_cons, h]
      omega
    · simp [List.dropWhile_cons, h]

theorem trimJS_length_le (l : List Char) : (trimJS l).length ≤ l.length := by
  simp only [trimJS, List.length_reverse]
  calc ((l.dropWhile isTrimWs).reverse.dropWhile isTrimWs).length
      ≤ (l.dropWhile isTrimWs).reverse.length := length_dropWhile_le' _ _
    _ = (l.dropWhile isTrimWs).length := by simp
    _ ≤ l.length := length_dropWhile_le' _ _

theorem dropWhile_eq_self_of_trim_fixed (l : List Char) (h : trimJS l = l) :
    l.dropWhile isTrimWs = l := by
  cases hl : l with
  | nil => simp
  | cons a tl =>
    by_cases hw : isTrimWs a
    · exfalso
      have hlen : (trimJS (a :: tl)).length ≤ tl.length := by
        simp only [trimJS, List.dropWhile_cons, hw, if_true]
        calc ((tl.dropWhile isTrimWs).reverse.dropWhile isTrimWs).reverse.length
            = ((tl.dropWhile isTrimWs).reverse.dropWhile isTrimWs).length := by simp
          _ ≤ (tl.dropWhile isTrimWs).reverse.length := length_dropWhile_le' _ _
          _ = (tl.dropWhile isTrimWs).length := by simp
          _ ≤ tl.length := length_dropWhile_le' _ _
      rw [hl] at h
      rw [h] at hlen
      simp at hlen
    · simp [List.dropWhile_cons, hw]

theorem rev_dropWhile_eq_self_of_trim_fixed (l : List Char) (h : trimJS l = l) :
    l.reverse.dropWhile isTrimWs = l.reverse := by
  have hd := dropWhile_eq_self_of_trim_fixed l h
  have h2 : trimJS l = (l.reverse.dropWhile isTrimWs).reverse := by
    simp only [trimJS, hd]
  rw [h] at h2
  have := congrArg List.reverse h2
  simpa using this.symm

theorem head_not_ws_of_trim_fixed (a : Char) (tl : List Char)
    (h : trimJS (a :: tl) = a :: tl) : isTrimWs a = false := by
  have hd := dropWhile_eq_self_of_trim_fixed _ h
  by_cases hw : isTrimWs a
  · exfalso
    rw [List.dropWhile_cons, if_pos hw] at hd
    have := length_dropWhile_le' isTrimWs tl
    rw [hd] at this
    simp at this
  · simp [hw]

theorem trimJS_fixed_of_ends (x m y : List Char)
    (hx : trimJS x = x) (hxne : x ≠ []) (hy : trimJS y = y) (hyne : y ≠ []) :
    trimJS (x ++ m ++ y) = x ++ m ++ y := by
  obtain ⟨a, tx, rfl⟩ : ∃ a tx, x = a :: tx := by
    cases x with
    | nil => exact absurd rfl hxne
    | cons a tx => exact ⟨a, tx, rfl⟩
  obtain ⟨b, ty, hyy⟩ : ∃ b ty, y.reverse = b :: ty := by
    cases hyr : y.reverse with
    | nil => exact absurd (by simpa using congrArg List.reverse hyr) hyne
    | cons b ty => exact ⟨b, ty, rfl⟩
  have hha : isTrimWs a = false := head_not_ws_of_trim_fixed a tx hx
  have hrev := rev_dropWhile_eq_self_of_trim_fixed y hy
  have hhb : isTrimWs b = false := by
    rw [hyy] at hrev
    by_cases hw : isTrimWs b
    · exfalso
      rw [List.dropWhile_cons, if_pos hw] at hrev
      have := length_dropWhile_le' isTrimWs ty
      rw [hrev] at this
      simp at this
    · simp [hw]
  have h1 : ((a :: tx) ++ m ++ y).dropWhile isTrimWs = (a :: tx) ++ m ++ y := by
    simp [List.dropWhile_cons, hha]
  have h2 : ((a :: tx) ++ m ++ y).reverse.dropWhile isTrimWs =
      ((a :: tx) ++ m ++ y).reverse := by
    have hr : ((a :: tx) ++ m ++ y).reverse = b :: (ty ++ (m.reverse ++ (a :: tx).reverse)) := by
      simp [List.reverse_append, hyy]
    rw [hr]
    simp [List.dropWhile_cons, hhb]
  simp only [trimJS, h1, h2, List.reverse_reverse]

theorem trimJS_append_ws_right (l : List Char) (c : Char) (hc : isTrimWs c = true) :
    trimJS (l ++ [c]) = trimJS l := by
  induction l with
  | nil => simp [trimJS, hc]
  | cons a tl ih =>
    by_cases hw : isTrimWs a
    · simpa [trimJS, List.dropWhile_cons, hw] using ih
    · simp only [trimJS, List.cons_append, List.dropWhile_cons, hw, if_neg, Bool.false_eq_true,
        if_false, List.reverse_cons]
      have : (tl ++ [c]).reverse = c :: tl.reverse := by simp
      simp only [List.reverse_append]
      simp [List.dropWhile_cons, hc, hw]

theorem parseBlocksLoop_nil (fuel : Nat) : parseBlocksLoop fuel [] = some [] := by
  cases fuel <;> simp [parseBlocksLoop]

theorem parseF_single (t : List Char) (b : Block) (hne : t ≠ [])
    (h : parseBlockF t = some (some b, [])) :
    parseF t = some ([b], [b].filter isHeadingB) := by
  obtain ⟨n, hn⟩ : ∃ n, t.length = n + 1 := by
    cases t with
    | nil => exact absurd rfl hne
    | cons a r => exact ⟨r.length, by simp⟩
  have hie : t.isEmpty = false := by
    cases t with
    | nil => exact absurd rfl hne
    | cons a r => simp
  simp only [parseF, hn, parseBlocksLoop, hie, Bool.false_eq_true, if_false, h,
    parseBlocksLoop_nil, Option.map_some]
  simp

theorem parseF_two (t r : List Char) (b1 b2 : Block) (hne : t ≠ []) (hrne : r ≠ [])
    (h1 : parseBlockF t = some (some b1, r)) (h2 : parseBlockF r = some (some b2, [])) :
    parseF t = some ([b1, b2], [b1, b2].filter isHeadingB) := by
  obtain ⟨n, hn⟩ : ∃ n, t.length = n + 1 := by
    cases t with
    | nil => exact absurd rfl hne
    | cons a x => exact ⟨x.length, by simp⟩
  have hie : t.isEmpty = false := by
    cases t with
    | nil => exact absurd rfl hne
    | cons a x => simp
  have hrie : r.isEmpty = false := by
    cases r with
    | nil => exact absurd rfl hrne
    | cons a x => simp
  simp only [parseF, hn, parseBlocksLoop, hie, hrie, Bool.false_eq_true, if_false, h1, h2,
    parseBlocksLoop_nil, Option.map_some]
  simp

theorem skipEmptyLinesL_no_skip (fuel : Nat) (a : Char) (rest : List Char)
    (h1 : a ≠ '\n') (h2 : isWhitespace a = false) :
    skipEmptyLinesL (fuel + 1) (a :: rest) = a :: rest := by
  simp [skipEmptyLinesL, h1, h2]

theorem isWhitespace_isTrimWs (c : Char) (h : isWhitespace c = true) : isTrimWs c = true := by
  simp only [isWhitespace, Bool.or_eq_true, decide_eq_true_eq] at h
  rcases h with rfl | rfl <;> decide

theorem c6parse (k : Nat) (T : List Char) (ns : List Inline)
    (hnl : '\n' ∉ T) (htrim : trimJS T = T) (hinl : parseInlineF T = some ns) :
    parseF (List.replicate (k + 1) '#' ++ (' ' :: (T ++ ['\n']))) =
      some ([Block.heading (min (k + 1) 6) T ns], [Block.heading (min (k + 1) 6) T ns]) := by
  have hrep : List.replicate (k + 1) '#' = '#' :: List.replicate k '#' := by
    simp [List.replicate_succ]
  set t := List.replicate (k + 1) '#' ++ (' ' :: (T ++ ['\n'])) with ht
  have htc : t = '#' :: (List.replicate k '#' ++ (' ' :: (T ++ ['\n']))) := by
    rw [ht, hrep]
    simp
  have hne : t ≠ [] := by rw [htc]; simp
  have hskip : skipEmptyLinesL (t.length + 1) t = t := by
    rw [htc]
    exact skipEmptyLinesL_no_skip _ '#' _ (by decide) (by decide)
  have hhash : t.takeWhile (fun c => decide (c = '#')) = List.replicate (k + 1) '#' := by
    rw [ht]
    refine takeWhile_append_stop _ _ _ ?_ ?_
    · intro x hx
      have := List.eq_of_mem_replicate hx
      simp [this]
    · intro y hy
      simp at hy
      simp [hy]
  have hdrop : t.drop (k + 1) = ' ' :: (T ++ ['\n']) := by
    rw [ht]
    simp
  have hdw : (T ++ ['\n']).dropWhile isWhitespace = T ++ ['\n'] := by
    cases hT : T with
    | nil => decide
    | cons c tc =>
      have hc : isTrimWs c = false := head_not_ws_of_trim_fixed c tc (hT ▸ htrim)
      have hcw : isWhitespace c = false := by
        by_cases hw : isWhitespace c
        · exact absurd (isWhitespace_isTrimWs c hw) (by simp [hc])
        · simp [hw]
      simp [List.dropWhile_cons, hcw]
  have htkn : (T ++ ['\n']).takeWhile (fun c => decide (c ≠ '\n')) = T := by
    refine takeWhile_append_stop _ _ _ ?_ ?_
    · intro x hx
      simp
      exact fun e => hnl (e ▸ hx)
    · intro y hy
      simp at hy
      simp [hy]
  have hdkn : (T ++ ['\n']).dropWhile (fun c => decide (c ≠ '\n')) = ['\n'] := by
    refine dropWhile_append_stop _ _ _ ?_ ?_
    · intro x hx
      simp
      exact fun e => hnl (e ▸ hx)
    · intro y hy
      simp at hy
      simp [hy]
  have hheading : parseHeadingF t = some (Block.heading (min (k + 1) 6) T ns, []) := by
    simp only [parseHeadingF, hhash, List.length_replicate, hdrop, List.dropWhile_cons]
    simp only [show isWhitespace ' ' = true from by decide, if_true, hdw, htkn, hdkn,
      htrim, hinl, Option.map_some]
    simp
  have hblock : parseBlockF t = some (some (Block.heading (min (k + 1) 6) T ns), []) := by
    have h1 : parseBlockF t = (parseHeadingF t).map (fun p => (some p.1, p.2)) := by
      simp only [parseBlockF, hskip]
      rw [htc]
      simp
    rw [h1, hheading]
    simp
  have := parseF_single t _ hne hblock
  rw [this]
  simp [isHeadingB]

/-- Claim C6: a heading line with `k+1` hash markers, a space, and trimmed
newline-free text `T` parses to a single `heading` block of level
`min (k+1) 6` (clamped to 6) that is also the sole TOC entry; the renderer
emits `<h{level} id="{slug}">{inline}</h{level}>` and the TOC holds exactly
one entry with the same id, level, and rendered text. -/
theorem c6_heading_render_toc (k : Nat) (T : List Char) (ns : List Inline)
    (hnl : '\n' ∉ T) (htrim : trimJS T = T) (hinl : parseInlineF T = some ns) :
    parseF (List.replicate (k + 1) '#' ++ (' ' :: (T ++ ['\n']))) =
      some ([Block.heading (min (k + 1) 6) T ns], [Block.heading (min (k + 1) 6) T ns]) ∧
    renderBlocks [Block.heading (min (k + 1) 6) T ns] =
      "<h".toList ++ natStr (min (k + 1) 6) ++ " id=\"".toList ++ generateHeadingId T ++
        "\">".toList ++ renderInlineContent ns ++ "</h".toList ++ natStr (min (k + 1) 6) ++
        ">".toList ∧
    generateTOC [Block.heading (min (k + 1) 6) T ns] =
      "<ul class=\"toc-list\">".toList ++
        ("<li class=\"toc-item toc-level-".toList ++ natStr (min (k + 1) 6) ++
          "\">\n        <a href=\"#".toList ++ generateHeadingId T ++ "\">".toList ++
          renderInlineContent ns ++ "</a>\n      </li>".toList) ++ "</ul>".toList := by
  refine ⟨c6parse k T ns hnl htrim hinl, ?_, ?_⟩
  · simp [renderBlocks, renderNode]
  · simp [generateTOC, tocItem]

/-- Witness for C6 at `"# Title\n"` (level 1, id `title`) and
`"####### Title\n"` (7 markers clamp to level 6). -/
theorem c6_heading_render_toc_witness :
    parseF "# Title\n".toList =
      some ([Block.heading 1 "Title".toList [Inline.text "Title".toList]],
        [Block.heading 1 "Title".toList [Inline.text "Title".toList]]) ∧
    renderBlocks [Block.heading 1 "Title".toList [Inline.text "Title".toList]] =
      "<h1 id=\"title\">Title</h1>".toList ∧
    parseF "####### Title\n".toList =
      some ([Block.heading 6 "Title".toList [Inline.text "Title".toList]],
        [Block.heading 6 "Title".toList [Inline.text "Title".toList]]) ∧
    generateTOC [Block.heading 1 "Title".toList [Inline.text "Title".toList]] =
      ("<ul class=\"toc-list\"><li class=\"toc-item toc-level-1\">\n        " ++
        "<a href=\"#title\">Title</a>\n      </li></ul>").toList := by
  have h1 := c6_heading_render_toc 0 "Title".toList [Inline.text "Title".toList]
    (by decide) (by decide) (by decide)
  have h7 := c6_heading_render_toc 6 "Title".toList [Inline.text "Title".toList]
    (by decide) (by decide) (by decide)
  exact ⟨h1.1, by decide, h7.1, by decide⟩



theorem findFence_append (B : List Char) (prev : Char)
    (hA : prev = '\n' → B.take 3 ≠ ['`', '`', '`'])
    (hB : ∀ i, i < B.length → occursAt ['\n', '`', '`', '`'] B i = false) :
    findFence prev (B ++ ['\n', '`', '`', '`']) = B.length + 1 := by
  induction B generalizing prev with
  | nil => simp [findFence]
  | cons b bs ih =>
    have hcond : ¬ (((b :: bs) ++ ['\n', '`', '`', '`']).take 3 = ['`', '`', '`'] ∧
        prev = '\n') := by
      rintro ⟨h3, rfl⟩
      apply hA rfl
      rcases bs with _ | ⟨x, _ | ⟨y, bs'⟩⟩
      · simp at h3
      · simp [List.take_succ_cons] at h3
      · simp only [List.cons_append, List.take_succ_cons, List.take_zero] at h3 ⊢
        simp_all
    rw [List.cons_append, findFence, if_neg (by simpa using hcond)]
    have hA' : b = '\n' → bs.take 3 ≠ ['`', '`', '`'] := by
      rintro rfl h3
      have h0 := hB 0 (by simp)
      simp [occursAt, List.take_succ_cons, h3] at h0
    have hB' : ∀ i, i < bs.length → occursAt ['\n', '`', '`', '`'] bs i = false := by
      intro i hi
      have := hB (i + 1) (by simp; omega)
      simpa [occursAt] using this
    rw [ih b hA' hB']
    simp
    omega

theorem parseCodeBlockF_eval (L B : List Char) (hL : '\n' ∉ L)
    (hB0 : B.take 3 ≠ ['`', '`', '`'])
    (hBn : ∀ i, i < B.length → occursAt ['\n', '`', '`', '`'] B i = false) :
    parseCodeBlockF ('`' :: '`' :: '`' :: (L ++ ('\n' :: (B ++ ['\n', '`', '`', '`'])))) =
      (Block.code (trimJS B) (trimJS L), []) := by
  have htk : (L ++ ('\n' :: (B ++ ['\n', '`', '`', '`']))).takeWhile
      (fun c => decide (c ≠ '\n')) = L := by
    refine takeWhile_append_stop _ _ _ ?_ ?_
    · intro x hx
      simp
      exact fun e => hL (e ▸ hx)
    · intro y hy
      simp at hy
      simp [hy]
  have hdk : (L ++ ('\n' :: (B ++ ['\n', '`', '`', '`']))).dropWhile
      (fun c => decide (c ≠ '\n')) = '\n' :: (B ++ ['\n', '`', '`', '`']) := by
    refine dropWhile_append_stop _ _ _ ?_ ?_
    · intro x hx
      simp
      exact fun e => hL (e ▸ hx)
    · intro y hy
      simp at hy
      simp [hy]
  have hff : findFence '\n' (B ++ ['\n', '`', '`', '`']) = B.length + 1 :=
    findFence_append B '\n' (fun _ => hB0) hBn
  have htake : (B ++ ['\n', '`', '`', '`']).take (B.length + 1) = B ++ ['\n'] := by
    rw [show B.length + 1 = B.length + 1 from rfl, List.take_append 1]
    rfl
  have hdrop2 : (B ++ ['\n', '`', '`', '`']).drop (B.length + 1) = ['`', '`', '`'] := by
    rw [List.drop_append 1]
    rfl
  have htrimB : trimJS (B ++ ['\n']) = trimJS B :=
    trimJS_append_ws_right B '\n' (by decide)
  simp only [parseCodeBlockF, List.drop_succ_cons, List.drop_zero, htk, hdk, hff, htake,
    hdrop2, htrimB, List.drop_nil]

theorem parseBlockF_code (L B : List Char) (hL : '\n' ∉ L)
    (hB0 : B.take 3 ≠ ['`', '`', '`'])
    (hBn : ∀ i, i < B.length → occursAt ['\n', '`', '`', '`'] B i = false) :
    parseBlockF ('`' :: '`' :: '`' :: (L ++ ('\n' :: (B ++ ['\n', '`', '`', '`'])))) =
      some (some (Block.code (trimJS B) (trimJS L)), []) := by
  have hskip : skipEmptyLinesL
      (('`' :: '`' :: '`' :: (L ++ ('\n' :: (B ++ ['\n', '`', '`', '`'])))).length + 1)
      ('`' :: '`' :: '`' :: (L ++ ('\n' :: (B ++ ['\n', '`', '`', '`'])))) =
      '`' :: '`' :: '`' :: (L ++ ('\n' :: (B ++ ['\n', '`', '`', '`']))) :=
    skipEmptyLinesL_no_skip _ '`' _ (by decide) (by decide)
  simp only [parseBlockF, hskip]
  simp only [show ('`' : Char) = '#' ↔ False from by simp, if_false, iff_false]
  simp [isHorizontalRuleF, hrLineOk, parseCodeBlockF_eval L B hL hB0 hBn,
    List.take_succ_cons]

/-- Claim C5 (amended): for a fenced code block, the stored `raw_content`
equals the JS `trim()` of the exact text between the opening fence line and
the closing fence — *all* leading and trailing whitespace (spaces, tabs,
newlines) is removed, not merely one newline; the interior is preserved
verbatim, the node stores it raw (no inline parse), and the renderer emits
it only through `escapeHTML`. -/
theorem c5_code_trim_amended (L B : List Char) (hL : '\n' ∉ L)
    (hB0 : B.take 3 ≠ ['`', '`', '`'])
    (hBn : ∀ i, i < B.length → occursAt ['\n', '`', '`', '`'] B i = false) :
    parseF ('`' :: '`' :: '`' :: (L ++ ('\n' :: (B ++ ['\n', '`', '`', '`'])))) =
      some ([Block.code (trimJS B) (trimJS L)], []) ∧
    renderBlocks [Block.code (trimJS B) (trimJS L)] =
      "<div class=\"code-block-container\">\n          <pre><code class=\"language-".toList ++
        trimJS L ++ "\">".toList ++ escapeHTML (trimJS B) ++
        "</code></pre>\n          <button class=\"copy-button\" aria-label=\"Copy code\">Copy</button>\n        </div>".toList := by
  constructor
  · have h := parseF_single _ _ (by simp) (parseBlockF_code L B hL hB0 hBn)
    rw [h]
    simp [isHeadingB]
  · simp [renderBlocks, renderNode]

/-- Witness for C5 (amended) at the spec's example ``"```js\nconst x = 1;\n```"``. -/
theorem c5_code_trim_amended_witness :
    parseF "```js\nconst x = 1;\n```".toList =
      some ([Block.code "const x = 1;".toList "js".toList], []) := by
  have h := c5_code_trim_amended "js".toList "const x = 1;".toList
    (by decide) (by decide) (by decide)
  exact h.1

theorem listContentLen_no_nl (ord : Bool) (l : List Char) (h : '\n' ∉ l) :
    listContentLen ord l = l.length := by
  induction l with
  | nil => simp [listContentLen]
  | cons x xs ih =>
    simp at h
    have hx : (x = '\n') = False := by simp; exact fun e => h.1 e.symm
    simp only [listContentLen, hx, if_false, List.length_cons]
    rw [ih h.2]
    omega

theorem listContentLen_append_break (ord : Bool) (a r : List Char) (ha : '\n' ∉ a)
    (c : Char) (hc : (r.dropWhile isWhitespace).head? = some c)
    (hbr : ((ord && c.isDigit) || (!ord && (c = '-' || c = '*' || c = '+'))) = true ∨
      c = '\n') :
    listContentLen ord (a ++ ('\n' :: r)) = a.length := by
  induction a with
  | nil =>
    simp only [List.nil_append, listContentLen, if_pos rfl, hc]
    rcases hbr with h | rfl
    · simp [h]
    · by_cases h2 : (ord && Char.isDigit '\n' || !ord && ('\n' = '-' || '\n' = '*' || '\n' = '+')) = true
      · simp [h2]
      · simp [h2]
  | cons x xs ih =>
    simp at ha
    have hx : (x = '\n') = False := by simp; exact fun e => ha.1 e.symm
    simp only [List.cons_append, listContentLen, hx, if_false, List.length_cons,
      List.append_eq]
    rw [ih ha.2]
    omega

theorem listContentLen_append_continue (ord : Bool) (b r : List Char) (hb : '\n' ∉ b)
    (hr : '\n' ∉ r) (c : Char) (hc : (r.dropWhile isWhitespace).head? = some c)
    (hbr : ((ord && c.isDigit) || (!ord && (c = '-' || c = '*' || c = '+'))) = false)
    (hcn : c ≠ '\n') :
    listContentLen ord (b ++ ('\n' :: r)) = b.length + 1 + r.length := by
  induction b with
  | nil =>
    simp only [List.nil_append, listContentLen, if_pos rfl, hc, hbr, Bool.false_eq_true,
      if_false, show (c = '\n') = False from by simp [hcn], List.length_nil]
    rw [listContentLen_no_nl ord r hr]
    simp
  | cons x xs ih =>
    simp at hb
    have hx : (x = '\n') = False := by simp; exact fun e => hb.1 e.symm
    simp only [List.cons_append, listContentLen, hx, if_false, List.length_cons,
      List.append_eq]
    rw [ih hb.2]
    omega

theorem dropWhile_ws_append_fixed (a X : List Char) (ha : trimJS a = a) (hane : a ≠ []) :
    (a ++ X).dropWhile isWhitespace = a ++ X := by
  obtain ⟨a0, tl, rfl⟩ : ∃ a0 tl, a = a0 :: tl := by
    cases a with
    | nil => exact absurd rfl hane
    | cons a0 tl => exact ⟨a0, tl, rfl⟩
  have hc : isTrimWs a0 = false := head_not_ws_of_trim_fixed a0 tl ha
  have hcw : isWhitespace a0 = false := by
    by_cases hw : isWhitespace a0
    · exact absurd (isWhitespace_isTrimWs a0 hw) (by simp [hc])
    · simp [hw]
  simp [List.dropWhile_cons, hcw]

theorem parseListLoop_nil_input (fuel : Nat) (ord : Bool) (ci : Nat) (items : List ListItem) :
    parseListLoop fuel ord ci items [] = some (items, []) := by
  cases fuel <;> simp [parseListLoop]
theorem parseListLoop_two_items (f : Nat) (a b : List Char) (nsa nsb : List Inline)
    (hna : '\n' ∉ a) (hta : trimJS a = a) (hane : a ≠ []) (hia : parseInlineF a = some nsa)
    (hnb : '\n' ∉ b) (htb : trimJS b = b) (hbne : b ≠ []) (hib : parseInlineF b = some nsb) :
    parseListLoop (f + 2) false 0 []
      ('-' :: ' ' :: (a ++ ('\n' :: ('-' :: ' ' :: b)))) =
      some ([⟨a, nsa⟩, ⟨b, nsb⟩], []) := by
  have hdw1 : (a ++ ('\n' :: ('-' :: ' ' :: b))).dropWhile isWhitespace =
      a ++ ('\n' :: ('-' :: ' ' :: b)) := dropWhile_ws_append_fixed a _ hta hane
  have hdwb : (b.dropWhile isWhitespace) = b := by
    simpa using dropWhile_ws_append_fixed b [] htb hbne
  have hk1 : listContentLen false (a ++ ('\n' :: ('-' :: ' ' :: b))) = a.length := by
    refine listContentLen_append_break false a _ hna '-' ?_ ?_
    · simp [List.dropWhile_cons, show isWhitespace '-' = false from by decide]
    · left; decide
  have htake1 : (a ++ ('\n' :: ('-' :: ' ' :: b))).take a.length = a := List.take_left a _
  have hdrop1 : (a ++ ('\n' :: ('-' :: ' ' :: b))).drop a.length = '\n' :: ('-' :: ' ' :: b) :=
    List.drop_left a _
  have hk2 : listContentLen false b = b.length := listContentLen_no_nl false b hnb
  have htake2 : b.take b.length = b := List.take_length b
  have hdrop2 : b.drop b.length = [] := List.drop_length b
  simp only [parseListLoop, List.isEmpty_cons, Bool.false_eq_true, if_false,
    List.takeWhile_cons, show isWhitespace '-' = false from by decide,
    List.takeWhile_nil, List.length_nil, List.dropWhile_cons,
    show isWhitespace ' ' = true from by decide, if_true, List.drop_zero,
    hdw1, hdwb, hk1, htake1, hdrop1, hta, hia, hk2, htake2, hdrop2, htb, hib]
  simp [parseListLoop_nil_input, List.dropWhile_cons, List.takeWhile_cons, isWhitespace,
    hdw1, hdwb, hk1, htake1, hdrop1, hta, hia, hk2, htake2, hdrop2, htb, hib]

theorem parseListLoop_absorb (f : Nat) (a b c : List Char) (nsa nsbc : List Inline)
    (hna : '\n' ∉ a) (hta : trimJS a = a) (hane : a ≠ []) (hia : parseInlineF a = some nsa)
    (hnb : '\n' ∉ b) (htb : trimJS b = b) (hbne : b ≠ [])
    (hnc : '\n' ∉ c) (htc : trimJS c = c) (hcne : c ≠ [])
    (hibc : parseInlineF (b ++ ('\n' :: ('1' :: '.' :: ' ' :: c))) = some nsbc) :
    parseListLoop (f + 2) false 0 []
      ('-' :: ' ' :: (a ++ ('\n' :: ('-' :: ' ' :: (b ++ ('\n' :: ('1' :: '.' :: ' ' :: c))))))) =
      some ([⟨a, nsa⟩, ⟨b ++ ('\n' :: ('1' :: '.' :: ' ' :: c)), nsbc⟩], []) := by
  set r2 : List Char := '1' :: '.' :: ' ' :: c with hr2
  set w : List Char := b ++ ('\n' :: r2) with hw
  have hdw1 : (a ++ ('\n' :: ('-' :: ' ' :: w))).dropWhile isWhitespace =
      a ++ ('\n' :: ('-' :: ' ' :: w)) := dropWhile_ws_append_fixed a _ hta hane
  have hdwb : w.dropWhile isWhitespace = w := by
    rw [hw]
    exact dropWhile_ws_append_fixed b _ htb hbne
  have hk1 : listContentLen false (a ++ ('\n' :: ('-' :: ' ' :: w))) = a.length := by
    refine listContentLen_append_break false a _ hna '-' ?_ ?_
    · simp [List.dropWhile_cons, show isWhitespace '-' = false from by decide]
    · left; decide
  have htake1 : (a ++ ('\n' :: ('-' :: ' ' :: w))).take a.length = a := List.take_left a _
  have hdrop1 : (a ++ ('\n' :: ('-' :: ' ' :: w))).drop a.length = '\n' :: ('-' :: ' ' :: w) :=
    List.drop_left a _
  have hnr2 : '\n' ∉ r2 := by
    rw [hr2]
    simp
    exact fun h => hnc h
  have hk2 : listContentLen false w = b.length + 1 + r2.length := by
    rw [hw]
    refine listContentLen_append_continue false b r2 hnb hnr2 '1' ?_ ?_ (by decide)
    · rw [hr2]; simp [List.dropWhile_cons, show isWhitespace '1' = false from by decide]
    · decide
  have hlen2 : w.length = b.length + 1 + r2.length := by
    rw [hw]; simp; omega
  have htake2 : w.take (b.length + 1 + r2.length) = w := by
    rw [← hlen2]; exact List.take_length w
  have hdrop2 : w.drop (b.length + 1 + r2.length) = [] := by
    rw [← hlen2]; exact List.drop_length w
  have htw : trimJS w = w := by
    have h := trimJS_fixed_of_ends b ['\n', '1', '.', ' '] c htb hbne htc hcne
    rw [hw, hr2]
    simpa [List.append_assoc] using h
  simp only [parseListLoop, List.isEmpty_cons, Bool.false_eq_true, if_false,
    List.takeWhile_cons, show isWhitespace '-' = false from by decide,
    List.takeWhile_nil, List.length_nil, List.dropWhile_cons,
    show isWhitespace ' ' = true from by decide, if_true, List.drop_zero,
    hdw1, hdwb, hk1, htake1, hdrop1, hta, hia, hk2, htake2, hdrop2, htw, hibc]
  simp [parseListLoop_nil_input, List.dropWhile_cons, List.takeWhile_cons, isWhitespace,
    hdw1, hdwb, hk1, htake1, hdrop1, hta, hia, hk2, htake2, hdrop2, htw, hibc]

theorem parseListLoop_blank (f : Nat) (a rest : List Char) (nsa : List Inline)
    (hna : '\n' ∉ a) (hta : trimJS a = a) (hane : a ≠ []) (hia : parseInlineF a = some nsa) :
    parseListLoop (f + 1) false 0 [] ('-' :: ' ' :: (a ++ ('\n' :: ('\n' :: rest)))) =
      some ([⟨a, nsa⟩], rest) := by
  have hdw1 : (a ++ ('\n' :: ('\n' :: rest))).dropWhile isWhitespace =
      a ++ ('\n' :: ('\n' :: rest)) := dropWhile_ws_append_fixed a _ hta hane
  have hk1 : listContentLen false (a ++ ('\n' :: ('\n' :: rest))) = a.length := by
    refine listContentLen_append_break false a _ hna '\n' ?_ ?_
    · simp [List.dropWhile_cons, show isWhitespace '\n' = false from by decide]
    · right; rfl
  have htake1 : (a ++ ('\n' :: ('\n' :: rest))).take a.length = a := List.take_left a _
  have hdrop1 : (a ++ ('\n' :: ('\n' :: rest))).drop a.length = '\n' :: ('\n' :: rest) :=
    List.drop_left a _
  simp only [parseListLoop, List.isEmpty_cons, Bool.false_eq_true, if_false,
    List.takeWhile_cons, show isWhitespace '-' = false from by decide,
    List.takeWhile_nil, List.length_nil, List.dropWhile_cons,
    show isWhitespace ' ' = true from by decide, if_true, List.drop_zero,
    hdw1, hk1, htake1, hdrop1, hta, hia]
  simp [List.dropWhile_cons, List.takeWhile_cons, isWhitespace, hdw1, hk1, htake1,
    hdrop1, hta, hia]

theorem parseListLoop_ordered_single (f : Nat) (c : List Char) (nsc : List Inline)
    (hnc : '\n' ∉ c) (htc : trimJS c = c) (hcne : c ≠ []) (hic : parseInlineF c = some nsc) :
    parseListLoop (f + 1) true 0 [] ('1' :: '.' :: ' ' :: c) = some ([⟨c, nsc⟩], []) := by
  have hdd : ('1' :: '.' :: ' ' :: c).dropWhile Char.isDigit = '.' :: ' ' :: c := by
    simp [List.dropWhile_cons]
  have hdwc : c.dropWhile isWhitespace = c := by
    simpa using dropWhile_ws_append_fixed c [] htc hcne
  have hk : listContentLen true c = c.length := listContentLen_no_nl true c hnc
  have htake : c.take c.length = c := List.take_length c
  have hdrop : c.drop c.length = [] := List.drop_length c
  simp only [parseListLoop, List.isEmpty_cons, Bool.false_eq_true, if_false,
    List.takeWhile_cons, show isWhitespace '1' = false from by decide,
    List.takeWhile_nil, List.length_nil, List.drop_zero, hdd, List.dropWhile_cons,
    show isWhitespace ' ' = true from by decide, if_true, hdwc, hk, htake, hdrop, htc, hic]
  simp [List.dropWhile_cons, List.takeWhile_cons, isWhitespace, Char.isDigit, hdd, hdwc,
    hk, htake, hdrop, htc, hic, parseListLoop_nil_input]

theorem parseBlockF_dash (x : Char) (xs : List Char) :
    parseBlockF ('-' :: ' ' :: (x :: xs)) =
      (parseListF false ('-' :: ' ' :: (x :: xs))).map (fun p => (some p.1, p.2)) := by
  have hskip := skipEmptyLinesL_no_skip (('-' :: ' ' :: (x :: xs)).length) '-' (' ' :: (x :: xs))
    (by decide) (by decide)
  simp only [parseBlockF, hskip]
  simp [isHorizontalRuleF, headIs, isWhitespace]

theorem parseBlockF_ordered1 (c : List Char) :
    parseBlockF ('1' :: '.' :: ' ' :: c) =
      (parseListF true ('1' :: '.' :: ' ' :: c)).map (fun p => (some p.1, p.2)) := by
  have hskip := skipEmptyLinesL_no_skip (('1' :: '.' :: ' ' :: c).length) '1' ('.' :: ' ' :: c)
    (by decide) (by decide)
  simp only [parseBlockF, hskip]
  simp [isHorizontalRuleF, headIs, isWhitespace, List.dropWhile_cons]

/-- Claim C7 (amended): two consecutive `- a`/`- b` lines produce one `<ul>`
with two `<li>` (part 1), and a blank line does close the list, after which
`1. c` opens a separate `<ol>` (part 3).  But a directly following `1. c`
line does *not* terminate the unordered list: the item-content scanner only
breaks on a next line starting with the same marker kind or on a blank line,
so `1. c` is absorbed into the second item's content and no `<ol>` is
produced (part 2). -/
theorem c7_list_amended (a b c : List Char) (nsa nsb nsbc nsc : List Inline)
    (hna : '\n' ∉ a) (hta : trimJS a = a) (hane : a ≠ []) (hia : parseInlineF a = some nsa)
    (hnb : '\n' ∉ b) (htb : trimJS b = b) (hbne : b ≠ []) (hib : parseInlineF b = some nsb)
    (hnc : '\n' ∉ c) (htc : trimJS c = c) (hcne : c ≠ []) (hic : parseInlineF c = some nsc)
    (hibc : parseInlineF (b ++ ('\n' :: ('1' :: '.' :: ' ' :: c))) = some nsbc) :
    (parseF ('-' :: ' ' :: (a ++ ('\n' :: ('-' :: ' ' :: b)))) =
      some ([Block.list false [⟨a, nsa⟩, ⟨b, nsb⟩]], []) ∧
     renderBlocks [Block.list false [⟨a, nsa⟩, ⟨b, nsb⟩]] =
      "<ul><li>".toList ++ renderInlineContent nsa ++ "</li><li>".toList ++
        renderInlineContent nsb ++ "</li></ul>".toList) ∧
    (parseF ('-' :: ' ' ::
        (a ++ ('\n' :: ('-' :: ' ' :: (b ++ ('\n' :: ('1' :: '.' :: ' ' :: c))))))) =
      some ([Block.list false
        [⟨a, nsa⟩, ⟨b ++ ('\n' :: ('1' :: '.' :: ' ' :: c)), nsbc⟩]], [])) ∧
    (parseF ('-' :: ' ' :: (a ++ ('\n' :: ('\n' :: ('1' :: '.' :: ' ' :: c))))) =
      some ([Block.list false [⟨a, nsa⟩], Block.list true [⟨c, nsc⟩]], []) ∧
     renderBlocks [Block.list false [⟨a, nsa⟩], Block.list true [⟨c, nsc⟩]] =
      "<ul><li>".toList ++ renderInlineContent nsa ++ "</li></ul><ol><li>".toList ++
        renderInlineContent nsc ++ "</li></ol>".toList) := by
  obtain ⟨a0, atl, rfl⟩ : ∃ a0 atl, a = a0 :: atl := by
    cases a with
    | nil => exact absurd rfl hane
    | cons a0 atl => exact ⟨a0, atl, rfl⟩
  refine ⟨⟨?_, ?_⟩, ?_, ?_, ?_⟩
  · -- part 1 parse
    have hloop := parseListLoop_two_items ((a0 :: atl).length + b.length + 4) (a0 :: atl) b
      nsa nsb hna hta hane hia hnb htb hbne hib
    have hlist : parseListF false ('-' :: ' ' :: ((a0 :: atl) ++ ('\n' :: ('-' :: ' ' :: b)))) =
        some (Block.list false [⟨a0 :: atl, nsa⟩, ⟨b, nsb⟩], []) := by
      have hfl : ('-' :: ' ' :: ((a0 :: atl) ++ ('\n' :: ('-' :: ' ' :: b)))).length + 1 =
          ((a0 :: atl).length + b.length + 4) + 2 := by simp; omega
      simp only [parseListF, hfl, hloop]
      rfl
    have hblock : parseBlockF ('-' :: ' ' :: ((a0 :: atl) ++ ('\n' :: ('-' :: ' ' :: b)))) =
        some (some (Block.list false [⟨a0 :: atl, nsa⟩, ⟨b, nsb⟩]), []) := by
      rw [show (a0 :: atl) ++ ('\n' :: ('-' :: ' ' :: b)) =
        a0 :: (atl ++ ('\n' :: ('-' :: ' ' :: b))) from by simp] at hlist ⊢
      rw [parseBlockF_dash, hlist]
      rfl
    have h := parseF_single _ _ (by simp) hblock
    rw [h]
    simp [isHeadingB]
  · -- part 1 render
    simp [renderBlocks, renderNode]
  · -- part 2 parse
    have hloop := parseListLoop_absorb
      ((a0 :: atl).length + (b ++ ('\n' :: ('1' :: '.' :: ' ' :: c))).length + 4)
      (a0 :: atl) b c nsa nsbc hna hta hane hia hnb htb hbne hnc htc hcne hibc
    have hlist : parseListF false ('-' :: ' ' :: ((a0 :: atl) ++
        ('\n' :: ('-' :: ' ' :: (b ++ ('\n' :: ('1' :: '.' :: ' ' :: c))))))) =
        some (Block.list false
          [⟨a0 :: atl, nsa⟩, ⟨b ++ ('\n' :: ('1' :: '.' :: ' ' :: c)), nsbc⟩], []) := by
      have hfl : ('-' :: ' ' :: ((a0 :: atl) ++
          ('\n' :: ('-' :: ' ' :: (b ++ ('\n' :: ('1' :: '.' :: ' ' :: c))))))).length + 1 =
          ((a0 :: atl).length + (b ++ ('\n' :: ('1' :: '.' :: ' ' :: c))).length + 4) + 2 := by
        simp
        omega
      simp only [parseListF, hfl, hloop]
      rfl
    have hblock : parseBlockF ('-' :: ' ' :: ((a0 :: atl) ++
        ('\n' :: ('-' :: ' ' :: (b ++ ('\n' :: ('1' :: '.' :: ' ' :: c))))))) =
        some (some (Block.list false
          [⟨a0 :: atl, nsa⟩, ⟨b ++ ('\n' :: ('1' :: '.' :: ' ' :: c)), nsbc⟩]), []) := by
      rw [show (a0 :: atl) ++ ('\n' :: ('-' :: ' ' :: (b ++ ('\n' :: ('1' :: '.' :: ' ' :: c))))) =
        a0 :: (atl ++ ('\n' :: ('-' :: ' ' :: (b ++ ('\n' :: ('1' :: '.' :: ' ' :: c)))))) from by
          simp] at hlist ⊢
      rw [parseBlockF_dash, hlist]
      rfl
    have h := parseF_single _ _ (by simp) hblock
    rw [h]
    simp [isHeadingB]
  · -- part 3 parse
    have hloop := parseListLoop_blank
      (('-' :: ' ' :: ((a0 :: atl) ++ ('\n' :: ('\n' :: ('1' :: '.' :: ' ' :: c))))).length)
      (a0 :: atl) ('1' :: '.' :: ' ' :: c) nsa hna hta hane hia
    have hlist : parseListF false
        ('-' :: ' ' :: ((a0 :: atl) ++ ('\n' :: ('\n' :: ('1' :: '.' :: ' ' :: c))))) =
        some (Block.list false [⟨a0 :: atl, nsa⟩], '1' :: '.' :: ' ' :: c) := by
      simp only [parseListF, hloop]
      rfl
    have hblock1 : parseBlockF
        ('-' :: ' ' :: ((a0 :: atl) ++ ('\n' :: ('\n' :: ('1' :: '.' :: ' ' :: c))))) =
        some (some (Block.list false [⟨a0 :: atl, nsa⟩]), '1' :: '.' :: ' ' :: c) := by
      rw [show (a0 :: atl) ++ ('\n' :: ('\n' :: ('1' :: '.' :: ' ' :: c))) =
        a0 :: (atl ++ ('\n' :: ('\n' :: ('1' :: '.' :: ' ' :: c)))) from by simp] at hlist ⊢
      rw [parseBlockF_dash, hlist]
      rfl
    have hloop2 := parseListLoop_ordered_single (('1' :: '.' :: ' ' :: c).length) c nsc
      hnc htc hcne hic
    have hblock2 : parseBlockF ('1' :: '.' :: ' ' :: c) =
        some (some (Block.list true [⟨c, nsc⟩]), []) := by
      rw [parseBlockF_ordered1]
      simp only [parseListF, hloop2]
      rfl
    have h := parseF_two _ _ _ _ (by simp) (by simp) hblock1 hblock2
    rw [h]
    simp [isHeadingB]
  · -- part 3 render
    simp [renderBlocks, renderNode]

theorem c7_list_amended_witness :
    (parseF ('-' :: ' ' :: (['a'] ++ ('\n' :: ('-' :: ' ' :: ['b'])))) =
      some ([Block.list false
        [⟨['a'], [Inline.text ['a']]⟩, ⟨['b'], [Inline.text ['b']]⟩]], []) ∧
     renderBlocks [Block.list false
        [⟨['a'], [Inline.text ['a']]⟩, ⟨['b'], [Inline.text ['b']]⟩]] =
      "<ul><li>".toList ++ renderInlineContent [Inline.text ['a']] ++ "</li><li>".toList ++
        renderInlineContent [Inline.text ['b']] ++ "</li></ul>".toList) ∧
    (parseF ('-' :: ' ' ::
        (['a'] ++ ('\n' :: ('-' :: ' ' :: (['b'] ++ ('\n' :: ('1' :: '.' :: ' ' :: ['c']))))))) =
      some ([Block.list false
        [⟨['a'], [Inline.text ['a']]⟩,
         ⟨['b'] ++ ('\n' :: ('1' :: '.' :: ' ' :: ['c'])),
          [Inline.text ('b' :: '\n' :: '1' :: '.' :: ' ' :: ['c'])]⟩]], [])) ∧
    (parseF ('-' :: ' ' :: (['a'] ++ ('\n' :: ('\n' :: ('1' :: '.' :: ' ' :: ['c']))))) =
      some ([Block.list false [⟨['a'], [Inline.text ['a']]⟩],
             Block.list true [⟨['c'], [Inline.text ['c']]⟩]], []) ∧
     renderBlocks [Block.list false [⟨['a'], [Inline.text ['a']]⟩],
                   Block.list true [⟨['c'], [Inline.text ['c']]⟩]] =
      "<ul><li>".toList ++ renderInlineContent [Inline.text ['a']] ++ "</li></ul><ol><li>".toList ++
        renderInlineContent [Inline.text ['c']] ++ "</li></ol>".toList) :=
  c7_list_amended ['a'] ['b'] ['c'] [Inline.text ['a']] [Inline.text ['b']]
    [Inline.text ('b' :: '\n' :: '1' :: '.' :: ' ' :: ['c'])] [Inline.text ['c']]
    (by decide) (by decide) (by decide) (by decide)
    (by decide) (by decide) (by decide) (by decide)
    (by decide) (by decide) (by decide) (by decide)
    (by decide)

end MDV
